import Mathlib

/-!
Session coordinator of the multiplayer chat/typing server (src/server/server.js)

A shallow embedding of the socket.io event handlers of `server.js` and a
verification of the coordinator's natural-language specification against them.

Modelling conventions:

* `players` (line 13) is a JavaScript object used as a map from socket id to a
  player record.  Its key order is never observed by the program, so it is a
  partial function `SocketId → Option Player`; `none` is JavaScript `undefined`.
* `gameRooms` (line 14) is a JavaScript object whose key order IS observed
  (`Object.keys(gameRooms)`, line 31).  It is an association list in
  `Object.keys` order: every key the program inserts has the form `room-<n>`,
  which is not an array index, so the order is insertion order, assigning to an
  existing key keeps its position and a new key goes to the end.
* A socket id is an opaque identifier handed out by the transport (a non-empty
  string that is never a property name of `Object.prototype`, nor `"undefined"`
  or `"null"`); it is a `Nat`.  A room id `room-<n>` is represented by `n`, the
  value `Date.now()` returned when the room was created.  Both kinds of id are
  non-empty strings, hence truthy.
* `Date.now()` and `new Date().toLocaleTimeString()` are inputs of the event.
* Payloads are well formed: `playerName` and chat messages are strings and
  scores are integers.
* Dereferencing `undefined` raises a `TypeError`.  A handler that throws stops
  where it throws: the mutations it already made stay in memory, it emits
  nothing more, and the outcome carries `threw = true`.
* `io.to(x).emit(event, payload)` is recorded as an `Emit` addressed to `x`
  (a room id or a socket id); delivery is the transport's business, and so is
  `socket.join` (line 46), which has no effect on `players` or `gameRooms`.
* `console.log` calls are omitted.
-/

namespace Server

/-- Socket id assigned by the transport (`socket.id`). -/
abbrev SocketId := Nat

/-- Room id: `n` stands for the key `room-<n>` of `gameRooms`. -/
abbrev RoomId := Nat

/-- Player record stored in `players[socket.id]` (lines 23-27).  The field
`opponent` is read by the `game_over` and `disconnect` handlers (lines 88, 120)
and written by line 122; `none` stands for an absent or `null` field. -/
structure Player where
  name : String
  score : Int
  room : Option RoomId
  opponent : Option SocketId
  deriving DecidableEq, Repr

/-- The object `gameRooms` in `Object.keys` order. -/
abbrev Rooms := List (RoomId × List SocketId)

/-- The two module-level maps of `server.js` (lines 13-14). -/
structure State where
  players : SocketId → Option Player
  gameRooms : Rooms

/-- Line 15. -/
def REQUIRED_PLAYERS : Nat := 3

/-- State at process start: `players = {}`, `gameRooms = {}`. -/
def State.empty : State := ⟨fun _ => none, []⟩

/-- One element of a roster array (lines 51-55, 76-80). -/
structure RosterEntry where
  id : SocketId
  name : String
  score : Int
  deriving DecidableEq, Repr

/-- Payload of an outbound event, one constructor per event name. -/
inductive Payload where
  | waiting_for_players (currentPlayers requiredPlayers : Nat) (players : List RosterEntry)
  | game_start (players : List RosterEntry)
  | players_update (players : List RosterEntry)
  | announce_winner (winner : String)
  | chat_message (sender message timestamp : String)
  | OpponentLeft
  deriving DecidableEq, Repr

/-- Addressee of `io.to(x)`: a room id or a socket id. -/
inductive Target where
  | room (r : RoomId)
  | socket (c : SocketId)
  deriving DecidableEq, Repr

/-- One call `io.to(target).emit(...)`. -/
structure Emit where
  target : Target
  payload : Payload
  deriving DecidableEq, Repr

/-- Result of running one handler: the maps as the handler left them, the
events it emitted in order, and whether it ended by throwing a `TypeError`. -/
structure Outcome where
  state : State
  emitted : List Emit
  threw : Bool

/-- Assignment `players[c] = p`. -/
def setPlayer (players : SocketId → Option Player) (c : SocketId) (p : Player) :
    SocketId → Option Player :=
  fun k => if k = c then some p else players k

/-- Statement `delete players[c]`. -/
def deletePlayer (players : SocketId → Option Player) (c : SocketId) :
    SocketId → Option Player :=
  fun k => if k = c then none else players k

/-- Property read `gameRooms[r]`. -/
def getRoom : Rooms → RoomId → Option (List SocketId)
  | [], _ => none
  | (k, ms) :: rest, r => if k = r then some ms else getRoom rest r

/-- Update of the array stored under the key `r`, if there is one. -/
def modifyRoom (f : List SocketId → List SocketId) (r : RoomId) : Rooms → Rooms
  | [] => []
  | (k, ms) :: rest =>
    if k = r then (k, f ms) :: rest else (k, ms) :: modifyRoom f r rest

/-- Assignment `gameRooms[r] = ms`: an existing key keeps its place, a new key
is added last. -/
def setRoom (g : Rooms) (r : RoomId) (ms : List SocketId) : Rooms :=
  match getRoom g r with
  | some _ => modifyRoom (fun _ => ms) r g
  | none => g ++ [(r, ms)]

/-- Call `gameRooms[r].push(c)`. -/
def pushRoom (g : Rooms) (r : RoomId) (c : SocketId) : Rooms :=
  modifyRoom (fun ms => ms ++ [c]) r g

/-- Body of the `forEach` callback of lines 31-36: `availableRoom` is assigned
when it is still `null` and the room under `roomId` has a free place. -/
def scanStep (g : Rooms) (availableRoom : Option RoomId) (roomId : RoomId) :
    Option RoomId :=
  match availableRoom, getRoom g roomId with
  | none, some ms => if ms.length < REQUIRED_PLAYERS then some roomId else none
  | none, none => none
  | some r, _ => some r

/-- Lines 29-36: the value of `availableRoom` after the scan of
`Object.keys(gameRooms)`. -/
def scanRooms (g : Rooms) : Option RoomId :=
  (g.map Prod.fst).foldl (scanStep g) none

/-- The `map` of lines 51-55 and 76-80 over the member ids of a room; reading
`.name` of an id that is missing from `players` throws (`none`). -/
def playersInRoom (players : SocketId → Option Player) :
    List SocketId → Option (List RosterEntry)
  | [] => some []
  | playerId :: rest =>
    match players playerId with
    | none => none
    | some p =>
      match playersInRoom players rest with
      | none => none
      | some es => some (⟨playerId, p.name, p.score⟩ :: es)

/-- Room the joiner is put in (lines 29-42): the room found by the scan, else
the new room `room-<now>`. -/
def chosenRoom (g : Rooms) (now : Nat) : RoomId :=
  match scanRooms g with
  | some r => r
  | none => now

/-- Lines 38-44: `gameRooms` after the optional creation of a room and the
push of the joiner. -/
def joinRooms (g : Rooms) (c : SocketId) (now : Nat) : Rooms :=
  match scanRooms g with
  | some r => pushRoom g r c
  | none => pushRoom (setRoom g now []) now c

/-- Lines 23-27 and 45: `players` after the registration of the joiner and the
assignment of its room. -/
def joinPlayers (s : State) (c : SocketId) (playerName : String) (now : Nat) :
    SocketId → Option Player :=
  setPlayer s.players c ⟨playerName, 0, some (chosenRoom s.gameRooms now), none⟩

/-- Handler of `request_to_play` (lines 20-69). -/
def request_to_play (s : State) (c : SocketId) (playerName : String) (now : Nat) :
    Outcome :=
  let availableRoom := chosenRoom s.gameRooms now
  let st : State := ⟨joinPlayers s c playerName now, joinRooms s.gameRooms c now⟩
  match getRoom st.gameRooms availableRoom with
  | none => ⟨st, [], true⟩
  | some members =>
    match playersInRoom st.players members with
    | none => ⟨st, [], true⟩
    | some roster =>
      ⟨st,
        ⟨Target.room availableRoom,
          Payload.waiting_for_players members.length REQUIRED_PLAYERS roster⟩ ::
        (if members.length = REQUIRED_PLAYERS then
          [⟨Target.room availableRoom, Payload.game_start roster⟩]
        else []),
        false⟩

/-- Handler of `score_update` (lines 71-84). -/
def score_update (s : State) (c : SocketId) (score : Int) : Outcome :=
  match s.players c with
  | none => ⟨s, [], false⟩
  | some p =>
    match p.room with
    | none => ⟨s, [], false⟩
    | some roomId =>
      let st : State := ⟨setPlayer s.players c { p with score := score }, s.gameRooms⟩
      match getRoom st.gameRooms roomId with
      | none => ⟨st, [], true⟩
      | some members =>
        match playersInRoom st.players members with
        | none => ⟨st, [], true⟩
        | some roster => ⟨st, [⟨Target.room roomId, Payload.players_update roster⟩], false⟩

/-- Lines 91-98: the winner string for two records. -/
def winnerOf (player opponent : Player) : String :=
  if player.score > opponent.score then player.name
  else if player.score < opponent.score then opponent.name
  else "It\x27s a Tie!"

/-- Handler of `game_over` (lines 86-103).  Line 88 reads `player.opponent`
before `player` is tested, which throws when the socket is not registered.  For
a record without opponent, `players[undefined]` is `undefined`, because no
socket id is the string `"undefined"`, and the test of line 90 fails. -/
def game_over (s : State) (c : SocketId) : Outcome :=
  match s.players c with
  | none => ⟨s, [], true⟩
  | some player =>
    match player.opponent with
    | none => ⟨s, [], false⟩
    | some opponentId =>
      match s.players opponentId with
      | none => ⟨s, [], false⟩
      | some opponent =>
        ⟨s,
          [⟨Target.socket c, Payload.announce_winner (winnerOf player opponent)⟩,
           ⟨Target.socket opponentId, Payload.announce_winner (winnerOf player opponent)⟩],
          false⟩

/-- Handler of `chat_message` (lines 105-115); `timestamp` is the value of
`new Date().toLocaleTimeString()`. -/
def chat_message (s : State) (c : SocketId) (message timestamp : String) : Outcome :=
  match s.players c with
  | none => ⟨s, [], false⟩
  | some player =>
    match player.room with
    | none => ⟨s, [], false⟩
    | some r =>
      ⟨s, [⟨Target.room r, Payload.chat_message player.name message timestamp⟩], false⟩

/-- Handler of `disconnect` (lines 117-127).  An absent or `null` opponent is
falsy; an opponent id is a non-empty string, hence truthy, and line 121 then
tests whether it is registered. -/
def disconnect (s : State) (c : SocketId) : Outcome :=
  match s.players c with
  | none => ⟨s, [], false⟩
  | some p =>
    match p.opponent with
    | none => ⟨⟨deletePlayer s.players c, s.gameRooms⟩, [], false⟩
    | some opponentId =>
      match s.players opponentId with
      | none => ⟨⟨deletePlayer s.players c, s.gameRooms⟩, [], false⟩
      | some o =>
        ⟨⟨deletePlayer (setPlayer s.players opponentId { o with opponent := none }) c,
            s.gameRooms⟩,
          [⟨Target.socket opponentId, Payload.OpponentLeft⟩], false⟩

/-- Inbound event on a socket, with the values the handler reads from the
environment. -/
inductive Event where
  | request_to_play (c : SocketId) (playerName : String) (now : Nat)
  | score_update (c : SocketId) (score : Int)
  | game_over (c : SocketId)
  | chat_message (c : SocketId) (message timestamp : String)
  | disconnect (c : SocketId)
  deriving DecidableEq, Repr

/-- Dispatch of one inbound event to its handler. -/
def step (s : State) : Event → Outcome
  | Event.request_to_play c playerName now => request_to_play s c playerName now
  | Event.score_update c score => score_update s c score
  | Event.game_over c => game_over s c
  | Event.chat_message c message timestamp => chat_message s c message timestamp
  | Event.disconnect c => disconnect s c

/-- Outcomes of the events of a sequence, handled one at a time from `s`.  An
uncaught exception ends the process, so nothing is handled after a throw. -/
def trace (s : State) : List Event → List Outcome
  | [] => []
  | e :: es =>
    let o := step s e
    o :: (if o.threw then [] else trace o.state es)

/-- State after a whole sequence of events (the state at the throw, if a
handler throws). -/
def runEvents (s : State) : List Event → State
  | [] => s
  | e :: es =>
    let o := step s e
    if o.threw then o.state else runEvents o.state es

/-- States the maps can be in: the state after some sequence of events handled
from the empty state. -/
def Reachable (s : State) : Prop := ∃ evs : List Event, runEvents State.empty evs = s

/-- The room id generated by the event, if the handler creates a room, is not a
key of `gameRooms` yet. -/
def freshEvent (s : State) : Event → Bool
  | Event.request_to_play _ _ now =>
    (scanRooms s.gameRooms).isSome || (getRoom s.gameRooms now).isNone
  | _ => true

/-- Every room id generated along the sequence is fresh when it is generated. -/
def freshRun (s : State) : List Event → Bool
  | [] => true
  | e :: es =>
    freshEvent s e && (if (step s e).threw then true else freshRun (step s e).state es)

/-- Ids the handler of `e`, run in `s`, pushes to the room `r` (line 44). -/
def pushedTo (r : RoomId) (s : State) : Event → List SocketId
  | Event.request_to_play c _ now => if chosenRoom s.gameRooms now = r then [c] else []
  | _ => []

/-- Ids pushed to the room `r` by the `request_to_play` events of a sequence
handled from `s`, in the order of the pushes. -/
def appendLog (r : RoomId) (s : State) : List Event → List SocketId
  | [] => []
  | e :: es =>
    pushedTo r s e ++ (if (step s e).threw then [] else appendLog r (step s e).state es)

/-- The roster carried by a payload, for the three events that carry one. -/
def rosterOf : Payload → Option (List RosterEntry)
  | Payload.waiting_for_players _ _ ps => some ps
  | Payload.game_start ps => some ps
  | Payload.players_update ps => some ps
  | _ => none

/-- The emitted event is a `game_start` addressed to the room `r`. -/
def isGameStartTo (r : RoomId) (em : Emit) : Bool :=
  match em.target, em.payload with
  | Target.room q, Payload.game_start _ => decide (q = r)
  | _, _ => false

/-- No member array of `gameRooms` is longer than `REQUIRED_PLAYERS`. -/
def Bounded (g : Rooms) : Prop := ∀ e ∈ g, e.2.length ≤ REQUIRED_PLAYERS

/-- Relation between the member arrays and a log `L` of the pushes so far:
each array is a final segment of the log of its room, and it is the whole log
as long as every generated room id was fresh (`b = true`). -/
def LogInv (b : Bool) (L : RoomId → List SocketId) (g : Rooms) : Prop :=
  (∀ r ms, getRoom g r = some ms → ms <:+ L r) ∧
  (b = true → ∀ r, (getRoom g r).getD [] = L r)

/-- A state that no run reaches: socket 1 is registered without a room, socket 2
names a room that does not exist, and `gameRooms` is empty.  No record names an
opponent. -/
def strayPlayers : State :=
  ⟨fun k =>
    if k = 1 then some ⟨"Alice", 0, none, none⟩
    else if k = 2 then some ⟨"Bob", 5, some 7, none⟩
    else none, []⟩

/-- Every registered socket has a room field that names a key of `gameRooms`. -/
def RoomsExist (s : State) : Prop :=
  ∀ p rec, s.players p = some rec →
    ∃ r, rec.room = some r ∧ (getRoom s.gameRooms r).isSome = true

/-- Every registered socket occurs in the member array of the room its record
names. -/
def MembersListed (s : State) : Prop :=
  ∀ p rec, s.players p = some rec →
    ∃ r ms, rec.room = some r ∧ getRoom s.gameRooms r = some ms ∧ p ∈ ms

/-- The room under the key `k` has fewer than `REQUIRED_PLAYERS` members (the
test `gameRooms[roomId].length < REQUIRED_PLAYERS` of line 32). -/
def hasFreePlace (g : Rooms) (k : RoomId) : Bool :=
  match getRoom g k with
  | some ms => decide (ms.length < REQUIRED_PLAYERS)
  | none => false

/-- Room ids the handler of `e`, run in `s`, creates (lines 38-42): the scan
found no room, so `room-<now>` is assigned the empty array. -/
def createdBy (s : State) : Event → List RoomId
  | Event.request_to_play _ _ now => if (scanRooms s.gameRooms).isNone then [now] else []
  | _ => []

/-- Room ids created by the events of a sequence handled from `s`, in the order
of their creation. -/
def creationLog (s : State) : List Event → List RoomId
  | [] => []
  | e :: es =>
    createdBy s e ++ (if (step s e).threw then [] else creationLog (step s e).state es)

/-- Shape of `gameRooms` when rooms are filled one after the other: distinct
keys, no empty and no over-full room, and three members in every room but the
last in key order. -/
def Packed (g : Rooms) : Prop :=
  (g.map Prod.fst).Nodup ∧
  (∀ e ∈ g, 1 ≤ e.2.length ∧ e.2.length ≤ REQUIRED_PLAYERS) ∧
  (∀ e ∈ g.dropLast, e.2.length = REQUIRED_PLAYERS)

/-- The event is a `disconnect`. -/
def isDisconnect : Event → Bool
  | Event.disconnect _ => true
  | _ => false

/-- Socket id and name of the `request_to_play` events of a sequence, in the
order of the events. -/
def joinsOf : List Event → List (SocketId × String)
  | [] => []
  | Event.request_to_play c playerName _ :: es => (c, playerName) :: joinsOf es
  | Event.score_update _ _ :: es => joinsOf es
  | Event.game_over _ :: es => joinsOf es
  | Event.chat_message _ _ _ :: es => joinsOf es
  | Event.disconnect _ :: es => joinsOf es

/-- Shape of `gameRooms` after the joins `J` of a sequential fill: packed,
one room for every three joins started, the last room holding the ids of the
joins that came after the last full group of three. -/
def FillRooms (J : List (SocketId × String)) (g : Rooms) : Prop :=
  Packed g ∧
  g.length = (J.length + 2) / 3 ∧
  ∀ init k ms, g = init ++ [(k, ms)] →
    ms = (J.drop (3 * ((J.length - 1) / 3))).map Prod.fst

/-- Every socket of `J` is registered under the name it joined with. -/
def Registered (J : List (SocketId × String)) (players : SocketId → Option Player) : Prop :=
  ∀ x ∈ J, ∃ rec, players x.1 = some rec ∧ rec.name = x.2

/-! ## Lemmas on the room map -/

theorem mem_of_getRoom {g : Rooms} {r : RoomId} {ms : List SocketId}
    (h : getRoom g r = some ms) : (r, ms) ∈ g := by
  induction g with
  | nil => simp [getRoom] at h
  | cons e rest ih =>
    obtain ⟨k, v⟩ := e
    by_cases hk : k = r
    · simp [getRoom, hk] at h
      simp [hk, h]
    · simp [getRoom, hk] at h
      exact List.mem_cons_of_mem _ (ih h)

theorem getRoom_modifyRoom_self (f : List SocketId → List SocketId) (r : RoomId)
    (g : Rooms) : getRoom (modifyRoom f r g) r = (getRoom g r).map f := by
  induction g with
  | nil => simp [modifyRoom, getRoom]
  | cons e rest ih =>
    obtain ⟨k, v⟩ := e
    by_cases hk : k = r
    · simp [modifyRoom, getRoom, hk]
    · simp [modifyRoom, getRoom, hk, ih]

theorem getRoom_modifyRoom_ne (f : List SocketId → List SocketId) {r q : RoomId}
    (g : Rooms) (h : q ≠ r) : getRoom (modifyRoom f r g) q = getRoom g q := by
  induction g with
  | nil => simp [modifyRoom, getRoom]
  | cons e rest ih =>
    obtain ⟨k, v⟩ := e
    by_cases hk : k = r
    · have hkq : ¬ k = q := fun hq => h (hq ▸ hk)
      simp [modifyRoom, getRoom, hk]
      simp [hk ▸ hkq]
    · by_cases hq : k = q
      · subst hq
        simp [modifyRoom, getRoom, hk]
      · simp [modifyRoom, getRoom, hk, hq, ih]

theorem getRoom_append_none {g : Rooms} {r : RoomId} (h : getRoom g r = none)
    (q : RoomId) (ms : List SocketId) :
    getRoom (g ++ [(r, ms)]) q = if r = q then some ms else getRoom g q := by
  induction g with
  | nil => simp [getRoom]
  | cons e rest ih =>
    obtain ⟨k, v⟩ := e
    by_cases hk : k = r
    · simp [getRoom, hk] at h
    · simp [getRoom, hk] at h
      by_cases hq : k = q
      · have : ¬ r = q := fun hrq => hk (hq.trans hrq.symm)
        simp [getRoom, hq, this]
      · simp [getRoom, hq, ih h]

theorem getRoom_setRoom_self (g : Rooms) (r : RoomId) (ms : List SocketId) :
    getRoom (setRoom g r ms) r = some ms := by
  unfold setRoom
  cases h : getRoom g r with
  | none => simp [getRoom_append_none h]
  | some v => simp [getRoom_modifyRoom_self, h]

theorem getRoom_setRoom_ne (g : Rooms) {r q : RoomId} (ms : List SocketId) (h : q ≠ r) :
    getRoom (setRoom g r ms) q = getRoom g q := by
  unfold setRoom
  cases hg : getRoom g r with
  | none => simp [getRoom_append_none hg, Ne.symm h]
  | some v => simp [getRoom_modifyRoom_ne _ _ h]

theorem bounded_modifyRoom {f : List SocketId → List SocketId} {r : RoomId} {g : Rooms}
    (hg : Bounded g)
    (hf : ∀ ms, getRoom g r = some ms → (f ms).length ≤ REQUIRED_PLAYERS) :
    Bounded (modifyRoom f r g) := by
  induction g with
  | nil => simpa [modifyRoom] using hg
  | cons e rest ih =>
    obtain ⟨k, v⟩ := e
    have hrest : Bounded rest := fun x hx => hg x (List.mem_cons_of_mem _ hx)
    by_cases hk : k = r
    · intro x hx
      simp only [modifyRoom, hk, if_true, List.mem_cons] at hx
      rcases hx with rfl | hx
      · exact hf v (by simp [getRoom, hk])
      · exact hrest x hx
    · intro x hx
      simp only [modifyRoom, hk, if_false, List.mem_cons] at hx
      rcases hx with rfl | hx
      · exact hg (k, v) (List.mem_cons_self _ _)
      · exact ih hrest (fun ms hms => hf ms (by simpa [getRoom, hk] using hms)) x hx

theorem bounded_setRoom_nil {g : Rooms} (hg : Bounded g) (r : RoomId) :
    Bounded (setRoom g r []) := by
  unfold setRoom
  cases h : getRoom g r with
  | none =>
    intro x hx
    rcases List.mem_append.1 hx with hx | hx
    · exact hg x hx
    · simp at hx
      simp [hx]
  | some v => exact bounded_modifyRoom hg (fun _ _ => by simp)

/-! ## Lemmas on the scan for an available room -/

theorem foldl_scanStep_some (g : Rooms) (r : RoomId) (ks : List RoomId) :
    List.foldl (scanStep g) (some r) ks = some r := by
  induction ks with
  | nil => rfl
  | cons k ks ih => simpa [List.foldl, scanStep] using ih

theorem foldl_scanStep_sound (g : Rooms) (ks : List RoomId) (r : RoomId)
    (h : List.foldl (scanStep g) none ks = some r) :
    ∃ ms, getRoom g r = some ms ∧ ms.length < REQUIRED_PLAYERS := by
  induction ks with
  | nil => simp at h
  | cons k ks ih =>
    rw [List.foldl_cons] at h
    cases hk : getRoom g k with
    | none =>
      have : scanStep g none k = none := by simp [scanStep, hk]
      rw [this] at h
      exact ih h
    | some ms =>
      by_cases hl : ms.length < REQUIRED_PLAYERS
      · have : scanStep g none k = some k := by simp [scanStep, hk, hl]
        rw [this, foldl_scanStep_some] at h
        cases h
        exact ⟨ms, hk, hl⟩
      · have : scanStep g none k = none := by simp [scanStep, hk, hl]
        rw [this] at h
        exact ih h

theorem scanRooms_sound {g : Rooms} {r : RoomId} (h : scanRooms g = some r) :
    ∃ ms, getRoom g r = some ms ∧ ms.length < REQUIRED_PLAYERS :=
  foldl_scanStep_sound g _ r h

/-! ## Effect of the handlers on the two maps -/

theorem request_to_play_state (s : State) (c : SocketId) (playerName : String) (now : Nat) :
    (request_to_play s c playerName now).state =
      ⟨joinPlayers s c playerName now, joinRooms s.gameRooms c now⟩ := by
  unfold request_to_play
  simp only
  split
  · rfl
  · split <;> rfl

theorem score_update_gameRooms (s : State) (c : SocketId) (score : Int) :
    (score_update s c score).state.gameRooms = s.gameRooms := by
  unfold score_update
  split
  · rfl
  · split
    · rfl
    · simp only
      split
      · rfl
      · split <;> rfl

theorem game_over_state (s : State) (c : SocketId) : (game_over s c).state = s := by
  unfold game_over
  split
  · rfl
  · split
    · rfl
    · split <;> rfl

theorem chat_message_state (s : State) (c : SocketId) (message timestamp : String) :
    (chat_message s c message timestamp).state = s := by
  unfold chat_message
  split
  · rfl
  · split <;> rfl

theorem disconnect_gameRooms (s : State) (c : SocketId) :
    (disconnect s c).state.gameRooms = s.gameRooms := by
  unfold disconnect
  split
  · rfl
  · split
    · rfl
    · split <;> rfl

theorem bounded_joinRooms {g : Rooms} (hg : Bounded g) (c : SocketId) (now : Nat) :
    Bounded (joinRooms g c now) := by
  unfold joinRooms
  cases h : scanRooms g with
  | none =>
    refine bounded_modifyRoom (bounded_setRoom_nil hg now) ?_
    intro ms hms
    rw [getRoom_setRoom_self] at hms
    cases hms
    simp [REQUIRED_PLAYERS]
  | some r =>
    obtain ⟨ms, hms, hlt⟩ := scanRooms_sound h
    refine bounded_modifyRoom hg ?_
    intro ms1 hms1
    rw [hms] at hms1
    cases hms1
    simp only [List.length_append, List.length_singleton]
    exact hlt

theorem bounded_step {s : State} (h : Bounded s.gameRooms) (e : Event) :
    Bounded (step s e).state.gameRooms := by
  cases e with
  | request_to_play c playerName now =>
    simp only [step, request_to_play_state]
    exact bounded_joinRooms h c now
  | score_update c score => simpa [step, score_update_gameRooms] using h
  | game_over c => simpa [step, game_over_state] using h
  | chat_message c message timestamp => simpa [step, chat_message_state] using h
  | disconnect c => simpa [step, disconnect_gameRooms] using h

/-- Induction over runs: a property of the start state that every handler
preserves holds after every sequence of events. -/
theorem runEvents_induction (P : State → Prop)
    (hstep : ∀ s e, P s → P (step s e).state) :
    ∀ (evs : List Event) (s : State), P s → P (runEvents s evs) := by
  intro evs
  induction evs with
  | nil => intro s hs; exact hs
  | cons e es ih =>
    intro s hs
    simp only [runEvents]
    split
    · exact hstep s e hs
    · exact ih _ (hstep s e hs)

/-! ## C1: capacity invariant -/

/-- C1. For every finite sequence of inbound events handled from the empty
state, after each event (that is, after the first `n` events, for every `n`)
every room of `gameRooms` holds at most `REQUIRED_PLAYERS` = 3 member ids. -/
theorem capacity_invariant (evs : List Event) (n : Nat) (r : RoomId) (ms : List SocketId)
    (h : getRoom (runEvents State.empty (evs.take n)).gameRooms r = some ms) :
    ms.length ≤ REQUIRED_PLAYERS ∧ REQUIRED_PLAYERS = 3 := by
  have hb : Bounded (runEvents State.empty (evs.take n)).gameRooms :=
    runEvents_induction (fun s => Bounded s.gameRooms) (fun s e hs => bounded_step hs e)
      _ _ (by intro e he; simp [State.empty] at he)
  exact ⟨hb _ (mem_of_getRoom h), rfl⟩

/-- Witness of C1: four joins fill the room `room-100` with three ids and open
`room-103` for the fourth. -/
theorem capacity_invariant_witness :
    getRoom (runEvents State.empty
      ([Event.request_to_play 1 "Alice" 100, Event.request_to_play 2 "Bob" 101,
        Event.request_to_play 3 "Cara" 102, Event.request_to_play 4 "Dan" 103].take 3)).gameRooms
      100 = some [1, 2, 3] ∧
    ([1, 2, 3] : List SocketId).length ≤ REQUIRED_PLAYERS ∧ REQUIRED_PLAYERS = 3 :=
  ⟨by decide,
    capacity_invariant
      [Event.request_to_play 1 "Alice" 100, Event.request_to_play 2 "Bob" 101,
        Event.request_to_play 3 "Cara" 102, Event.request_to_play 4 "Dan" 103]
      3 100 [1, 2, 3] (by decide)⟩

/-! ## C2, C3, C4: a join or a score report after a disconnect

`disconnect` deletes the record of the socket from `players` but leaves its id
in the member array of its room.  The next handler that builds the roster of
that room (lines 51-55 or 76-80) reads `players[playerId].name` for the departed
id and throws before it emits anything. -/

/-- C2. Alice and Bob join `room-100`, Alice disconnects, Cara joins: no handler
before Cara's throws, Cara's push brings `room-100` from two to exactly three
member ids, and yet her `request_to_play` emits nothing (no `game_start`, no
`waiting_for_players`) and ends with a `TypeError`. -/
theorem game_start_lost_after_disconnect :
    (trace State.empty [Event.request_to_play 1 "Alice" 100,
        Event.request_to_play 2 "Bob" 101, Event.disconnect 1]).map (fun o => o.threw)
      = [false, false, false] ∧
    getRoom (runEvents State.empty [Event.request_to_play 1 "Alice" 100,
        Event.request_to_play 2 "Bob" 101, Event.disconnect 1]).gameRooms 100
      = some [1, 2] ∧
    getRoom (request_to_play (runEvents State.empty [Event.request_to_play 1 "Alice" 100,
        Event.request_to_play 2 "Bob" 101, Event.disconnect 1]) 3 "Cara" 102).state.gameRooms 100
      = some [1, 2, 3] ∧
    (request_to_play (runEvents State.empty [Event.request_to_play 1 "Alice" 100,
        Event.request_to_play 2 "Bob" 101, Event.disconnect 1]) 3 "Cara" 102).emitted = [] ∧
    (request_to_play (runEvents State.empty [Event.request_to_play 1 "Alice" 100,
        Event.request_to_play 2 "Bob" 101, Event.disconnect 1]) 3 "Cara" 102).threw = true := by
  decide

/-- A second way `game_start` departs from "exactly once per room": when
`Date.now()` returns 100 again while every room is full, line 40 resets
`room-100`, the room fills a second time and `game_start` is emitted to
`room-100` twice (by the third and by the sixth join). -/
theorem game_start_twice_on_clock_collision :
    (trace State.empty [Event.request_to_play 1 "Alice" 100,
        Event.request_to_play 2 "Bob" 100, Event.request_to_play 3 "Cara" 100,
        Event.request_to_play 4 "Dan" 100, Event.request_to_play 5 "Eve" 100,
        Event.request_to_play 6 "Fay" 100]).map
      (fun o => (o.threw, (o.emitted.filter (isGameStartTo 100)).length))
      = [(false, 0), (false, 0), (false, 1), (false, 0), (false, 0), (false, 1)] := by
  decide

/-- C3. Alice joins and disconnects; the state is reachable without a throw and
socket 2 is not registered.  Bob's `request_to_play` picks `room-100`, whose
member array becomes `[1, 2]`, and then throws while building the roster: no
`waiting_for_players` event (nor any other) is emitted. -/
theorem room_status_lost_after_disconnect :
    (trace State.empty [Event.request_to_play 1 "Alice" 100, Event.disconnect 1]).map
        (fun o => o.threw) = [false, false] ∧
    (runEvents State.empty [Event.request_to_play 1 "Alice" 100, Event.disconnect 1]).players 2
      = none ∧
    chosenRoom (runEvents State.empty
        [Event.request_to_play 1 "Alice" 100, Event.disconnect 1]).gameRooms 101 = 100 ∧
    getRoom (request_to_play (runEvents State.empty
        [Event.request_to_play 1 "Alice" 100, Event.disconnect 1]) 2 "Bob" 101).state.gameRooms 100
      = some [1, 2] ∧
    (request_to_play (runEvents State.empty
        [Event.request_to_play 1 "Alice" 100, Event.disconnect 1]) 2 "Bob" 101).emitted = [] ∧
    (request_to_play (runEvents State.empty
        [Event.request_to_play 1 "Alice" 100, Event.disconnect 1]) 2 "Bob" 101).threw = true := by
  decide

/-- C4. The scenario of the specification holds: after the joins of Alice, Bob
and Cara a report of 10 from Bob broadcasts the roster
`[(Alice,0),(Bob,10),(Cara,0)]` to `room-100`.  But after Alice and Bob joined
and Alice disconnected, Bob is registered with the room `room-100` and his
report of 10 stores the score, throws while building the roster and broadcasts
nothing. -/
theorem score_report_lost_after_disconnect :
    (score_update (runEvents State.empty [Event.request_to_play 1 "Alice" 100,
        Event.request_to_play 2 "Bob" 101, Event.request_to_play 3 "Cara" 102]) 2 10).emitted
      = [⟨Target.room 100, Payload.players_update
          [⟨1, "Alice", 0⟩, ⟨2, "Bob", 10⟩, ⟨3, "Cara", 0⟩]⟩] ∧
    (trace State.empty [Event.request_to_play 1 "Alice" 100,
        Event.request_to_play 2 "Bob" 101, Event.disconnect 1]).map (fun o => o.threw)
      = [false, false, false] ∧
    (runEvents State.empty [Event.request_to_play 1 "Alice" 100,
        Event.request_to_play 2 "Bob" 101, Event.disconnect 1]).players 2
      = some ⟨"Bob", 0, some 100, none⟩ ∧
    (score_update (runEvents State.empty [Event.request_to_play 1 "Alice" 100,
        Event.request_to_play 2 "Bob" 101, Event.disconnect 1]) 2 10).state.players 2
      = some ⟨"Bob", 10, some 100, none⟩ ∧
    (score_update (runEvents State.empty [Event.request_to_play 1 "Alice" 100,
        Event.request_to_play 2 "Bob" 101, Event.disconnect 1]) 2 10).emitted = [] ∧
    (score_update (runEvents State.empty [Event.request_to_play 1 "Alice" 100,
        Event.request_to_play 2 "Bob" 101, Event.disconnect 1]) 2 10).threw = true := by
  decide

/-! ## C5: roster order -/

theorem playersInRoom_spec (players : SocketId → Option Player) :
    ∀ (ms : List SocketId) (ps : List RosterEntry), playersInRoom players ms = some ps →
      ps.map (fun x => x.id) = ms ∧
      ∀ x ∈ ps, ∃ p, players x.id = some p ∧ x.name = p.name ∧ x.score = p.score := by
  intro ms
  induction ms with
  | nil =>
    intro ps h
    simp [playersInRoom] at h
    subst h
    simp
  | cons m rest ih =>
    intro ps h
    unfold playersInRoom at h
    cases hm : players m with
    | none => simp [hm] at h
    | some p =>
      cases hr : playersInRoom players rest with
      | none => simp [hm, hr] at h
      | some es =>
        simp [hm, hr] at h
        subst h
        obtain ⟨h1, h2⟩ := ih es hr
        refine ⟨by simp [h1], ?_⟩
        intro x hx
        rcases List.mem_cons.1 hx with rfl | hx
        · exact ⟨p, hm, rfl, rfl⟩
        · exact h2 x hx

theorem getRoom_joinRooms_ne (g : Rooms) (c : SocketId) (now : Nat) {r : RoomId}
    (h : r ≠ chosenRoom g now) : getRoom (joinRooms g c now) r = getRoom g r := by
  unfold chosenRoom at h
  unfold joinRooms pushRoom
  cases hs : scanRooms g with
  | none =>
    simp only [hs] at h
    simp only
    rw [getRoom_modifyRoom_ne _ _ h, getRoom_setRoom_ne _ _ h]
  | some q =>
    simp only [hs] at h
    simp only
    rw [getRoom_modifyRoom_ne _ _ h]

theorem getRoom_joinRooms_found {g : Rooms} {q : RoomId} (hs : scanRooms g = some q)
    (c : SocketId) (now : Nat) :
    ∃ ms, getRoom g q = some ms ∧ ms.length < REQUIRED_PLAYERS ∧
      getRoom (joinRooms g c now) q = some (ms ++ [c]) := by
  obtain ⟨ms, hms, hlt⟩ := scanRooms_sound hs
  refine ⟨ms, hms, hlt, ?_⟩
  unfold joinRooms pushRoom
  simp only [hs]
  rw [getRoom_modifyRoom_self, hms]
  rfl

theorem getRoom_joinRooms_created {g : Rooms} (hs : scanRooms g = none)
    (c : SocketId) (now : Nat) : getRoom (joinRooms g c now) now = some [c] := by
  unfold joinRooms pushRoom
  simp only [hs]
  rw [getRoom_modifyRoom_self, getRoom_setRoom_self]
  rfl

/-- A roster emitted by a handler lists the member array of the addressed room
as the handler left it, with the name and score stored for each id. -/
theorem step_roster (s : State) (e : Event) (em : Emit) (hem : em ∈ (step s e).emitted)
    (r : RoomId) (ps : List RosterEntry) (ht : em.target = Target.room r)
    (hp : rosterOf em.payload = some ps) :
    getRoom (step s e).state.gameRooms r = some (ps.map (fun x => x.id)) ∧
    ∀ x ∈ ps, ∃ p, (step s e).state.players x.id = some p ∧
      x.name = p.name ∧ x.score = p.score := by
  cases e with
  | request_to_play c playerName now =>
    simp only [step] at hem ⊢
    rw [request_to_play_state]
    unfold request_to_play at hem
    simp only at hem
    split at hem
    · simp at hem
    · rename_i members hmem
      split at hem
      · simp at hem
      · rename_i roster hros
        obtain ⟨h1, h2⟩ := playersInRoom_spec _ _ _ hros
        have key : em.target = Target.room (chosenRoom s.gameRooms now) ∧
            rosterOf em.payload = some roster := by
          rcases List.mem_cons.1 hem with rfl | hem
          · exact ⟨rfl, rfl⟩
          · split at hem
            · rcases List.mem_singleton.1 hem with rfl
              exact ⟨rfl, rfl⟩
            · simp at hem
        obtain ⟨k1, k2⟩ := key
        rw [k1] at ht
        rw [k2] at hp
        cases ht
        cases hp
        exact ⟨by rw [h1]; exact hmem, h2⟩
  | score_update c score =>
    simp only [step] at hem ⊢
    cases hpc : s.players c with
    | none => simp [score_update, hpc] at hem
    | some p =>
      obtain ⟨nm, sc, rm, op⟩ := p
      cases rm with
      | none => simp [score_update, hpc] at hem
      | some roomId =>
        cases hmem : getRoom s.gameRooms roomId with
        | none => simp [score_update, hpc, hmem] at hem
        | some members =>
          cases hros : playersInRoom (setPlayer s.players c ⟨nm, score, some roomId, op⟩)
              members with
          | none => simp [score_update, hpc, hmem, hros] at hem
          | some roster =>
            obtain ⟨h1, h2⟩ := playersInRoom_spec _ _ _ hros
            simp only [score_update, hpc, hmem, hros, List.mem_singleton] at hem ⊢
            subst hem
            cases ht
            cases hp
            exact ⟨by rw [h1]; exact hmem, h2⟩
  | game_over c =>
    simp only [step] at hem
    unfold game_over at hem
    split at hem
    · simp at hem
    · split at hem
      · simp at hem
      · split at hem
        · simp at hem
        · simp only [List.mem_cons, List.mem_singleton, List.not_mem_nil, or_false] at hem
          rcases hem with rfl | rfl <;> simp [rosterOf] at hp
  | chat_message c message timestamp =>
    simp only [step] at hem
    unfold chat_message at hem
    split at hem
    · simp at hem
    · split at hem
      · simp at hem
      · rcases List.mem_singleton.1 hem with rfl
        simp [rosterOf] at hp
  | disconnect c =>
    simp only [step] at hem
    unfold disconnect at hem
    split at hem
    · simp at hem
    · split at hem
      · simp at hem
      · split at hem
        · simp at hem
        · rcases List.mem_singleton.1 hem with rfl
          simp [rosterOf] at hp

theorem logInv_step {b : Bool} {L : RoomId → List SocketId} {s : State}
    (h : LogInv b L s.gameRooms) (e : Event) :
    LogInv (b && freshEvent s e) (fun r => L r ++ pushedTo r s e)
      (step s e).state.gameRooms := by
  cases e with
  | request_to_play c playerName now =>
    simp only [step, request_to_play_state, pushedTo, freshEvent]
    constructor
    · intro r ms hms
      by_cases hr : r = chosenRoom s.gameRooms now
      · subst hr
        simp only [if_true]
        cases hs : scanRooms s.gameRooms with
        | none =>
          have hc : chosenRoom s.gameRooms now = now := by simp [chosenRoom, hs]
          rw [hc, getRoom_joinRooms_created hs] at hms
          cases hms
          exact List.suffix_append _ _
        | some q =>
          have hc : chosenRoom s.gameRooms now = q := by simp [chosenRoom, hs]
          obtain ⟨ms0, h0, -, h1⟩ := getRoom_joinRooms_found hs c now
          rw [hc, h1] at hms
          cases hms
          obtain ⟨t, ht⟩ := h.1 _ _ h0
          rw [hc]
          exact ⟨t, by rw [← ht, List.append_assoc]⟩
      · rw [getRoom_joinRooms_ne _ _ _ hr] at hms
        simp only [Ne.symm hr, if_false, List.append_nil]
        exact h.1 r ms hms
    · intro hb r
      simp only [Bool.and_eq_true, Bool.or_eq_true] at hb
      have hL := h.2 hb.1
      by_cases hr : r = chosenRoom s.gameRooms now
      · subst hr
        simp only [if_true]
        cases hs : scanRooms s.gameRooms with
        | none =>
          have hc : chosenRoom s.gameRooms now = now := by simp [chosenRoom, hs]
          have hnone : getRoom s.gameRooms now = none := by
            have := hb.2
            simpa [hs] using this
          have := hL now
          rw [hnone] at this
          rw [hc, getRoom_joinRooms_created hs, ← this]
          rfl
        | some q =>
          have hc : chosenRoom s.gameRooms now = q := by simp [chosenRoom, hs]
          obtain ⟨ms0, h0, -, h1⟩ := getRoom_joinRooms_found hs c now
          have := hL q
          rw [h0] at this
          rw [hc, h1, ← this]
          rfl
      · rw [getRoom_joinRooms_ne _ _ _ hr]
        simp only [Ne.symm hr, if_false, List.append_nil]
        exact hL r
  | score_update c score =>
    simpa [step, score_update_gameRooms, pushedTo, freshEvent] using h
  | game_over c => simpa [step, game_over_state, pushedTo, freshEvent] using h
  | chat_message c message timestamp =>
    simpa [step, chat_message_state, pushedTo, freshEvent] using h
  | disconnect c => simpa [step, disconnect_gameRooms, pushedTo, freshEvent] using h

theorem logInv_trace :
    ∀ (evs : List Event) (s : State) (b : Bool) (L : RoomId → List SocketId) (i : Nat)
      (o : Outcome), LogInv b L s.gameRooms → (trace s evs)[i]? = some o →
      LogInv (b && freshRun s (evs.take (i + 1)))
        (fun r => L r ++ appendLog r s (evs.take (i + 1))) o.state.gameRooms := by
  intro evs
  induction evs with
  | nil => intro s b L i o _ ho; simp [trace] at ho
  | cons e es ih =>
    intro s b L i o h ho
    have hstep := logInv_step h e
    cases i with
    | zero =>
      simp only [trace, List.getElem?_cons_zero, Option.some.injEq] at ho
      subst ho
      have e1 : ∀ r, appendLog r s (List.take (0 + 1) (e :: es)) = pushedTo r s e := by
        intro r
        simp [appendLog]
      have e2 : freshRun s (List.take (0 + 1) (e :: es)) = freshEvent s e := by
        simp [freshRun]
      simp only [e1, e2]
      exact hstep
    | succ j =>
      simp only [trace, List.getElem?_cons_succ] at ho
      cases ht : (step s e).threw with
      | true => simp [ht] at ho
      | false =>
        simp only [ht] at ho
        have := ih (step s e).state _ _ j o hstep (by simpa using ho)
        have e1 : ∀ r, appendLog r s (List.take (j + 1 + 1) (e :: es)) =
            pushedTo r s e ++ appendLog r (step s e).state (List.take (j + 1) es) := by
          intro r
          simp [appendLog, ht]
        have e2 : freshRun s (List.take (j + 1 + 1) (e :: es)) =
            (freshEvent s e && freshRun (step s e).state (List.take (j + 1) es)) := by
          simp [freshRun, ht]
        simp only [e1, e2, ← List.append_assoc, ← Bool.and_assoc]
        exact this

theorem trace_getElem_step :
    ∀ (evs : List Event) (s : State) (i : Nat) (o : Outcome),
      (trace s evs)[i]? = some o → ∃ s1 e, o = step s1 e := by
  intro evs
  induction evs with
  | nil => intro s i o ho; simp [trace] at ho
  | cons e es ih =>
    intro s i o ho
    cases i with
    | zero =>
      simp only [trace, List.getElem?_cons_zero, Option.some.injEq] at ho
      exact ⟨s, e, ho.symm⟩
    | succ j =>
      simp only [trace, List.getElem?_cons_succ] at ho
      cases ht : (step s e).threw with
      | true => simp [ht] at ho
      | false =>
        simp only [ht] at ho
        exact ih _ j o (by simpa using ho)

/-- C5. For every event sequence handled from the empty state and every event
of it (the one of index `i`, with outcome `o`), every roster carried by an
emitted `waiting_for_players`, `game_start` or `players_update` event addressed
to a room `r` lists exactly the ids of the member array of `r`, in the order in
which the `request_to_play` events pushed them: the list of ids is a final
segment of the sequence of pushes to `r` so far, and it is the whole sequence
when every generated room id was fresh.  Each entry carries the name and the
score stored for its id. -/
theorem roster_order_is_join_order (evs : List Event) (i : Nat) (o : Outcome)
    (ho : (trace State.empty evs)[i]? = some o) (em : Emit) (hem : em ∈ o.emitted)
    (r : RoomId) (ps : List RosterEntry) (ht : em.target = Target.room r)
    (hp : rosterOf em.payload = some ps) :
    getRoom o.state.gameRooms r = some (ps.map (fun x => x.id)) ∧
    ps.map (fun x => x.id) <:+ appendLog r State.empty (evs.take (i + 1)) ∧
    (freshRun State.empty (evs.take (i + 1)) = true →
      ps.map (fun x => x.id) = appendLog r State.empty (evs.take (i + 1))) ∧
    ∀ x ∈ ps, ∃ p, o.state.players x.id = some p ∧ x.name = p.name ∧ x.score = p.score := by
  obtain ⟨s1, e, rfl⟩ := trace_getElem_step evs _ i o ho
  obtain ⟨h1, h2⟩ := step_roster s1 e em hem r ps ht hp
  have hinv := logInv_trace evs State.empty true (fun _ => []) i _
    ⟨by intro r ms h; simp [State.empty, getRoom] at h,
     by intro _ r; simp [State.empty, getRoom]⟩ ho
  refine ⟨h1, ?_, ?_, h2⟩
  · simpa using hinv.1 r _ h1
  · intro hf
    have := hinv.2 (by simpa using hf) r
    rw [h1] at this
    simpa using this

/-- Witness of C5: the `game_start` roster of the third join lists Alice, Bob
and Cara in the order of their joins. -/
theorem roster_order_is_join_order_witness :
    appendLog 100 State.empty ([Event.request_to_play 1 "Alice" 100,
      Event.request_to_play 2 "Bob" 101, Event.request_to_play 3 "Cara" 102].take (2 + 1))
      = [1, 2, 3] ∧
    (getRoom (step (runEvents State.empty [Event.request_to_play 1 "Alice" 100,
        Event.request_to_play 2 "Bob" 101]) (Event.request_to_play 3 "Cara" 102)).state.gameRooms
        100
      = some (([⟨1, "Alice", 0⟩, ⟨2, "Bob", 0⟩, ⟨3, "Cara", 0⟩] : List RosterEntry).map
          (fun x => x.id)) ∧
    ([⟨1, "Alice", 0⟩, ⟨2, "Bob", 0⟩, ⟨3, "Cara", 0⟩] : List RosterEntry).map (fun x => x.id)
      <:+ appendLog 100 State.empty ([Event.request_to_play 1 "Alice" 100,
        Event.request_to_play 2 "Bob" 101, Event.request_to_play 3 "Cara" 102].take (2 + 1)) ∧
    (freshRun State.empty ([Event.request_to_play 1 "Alice" 100,
        Event.request_to_play 2 "Bob" 101, Event.request_to_play 3 "Cara" 102].take (2 + 1))
        = true →
      ([⟨1, "Alice", 0⟩, ⟨2, "Bob", 0⟩, ⟨3, "Cara", 0⟩] : List RosterEntry).map (fun x => x.id)
        = appendLog 100 State.empty ([Event.request_to_play 1 "Alice" 100,
          Event.request_to_play 2 "Bob" 101, Event.request_to_play 3 "Cara" 102].take (2 + 1))) ∧
    ∀ x ∈ ([⟨1, "Alice", 0⟩, ⟨2, "Bob", 0⟩, ⟨3, "Cara", 0⟩] : List RosterEntry),
      ∃ p, (step (runEvents State.empty [Event.request_to_play 1 "Alice" 100,
        Event.request_to_play 2 "Bob" 101]) (Event.request_to_play 3 "Cara" 102)).state.players
          x.id = some p ∧ x.name = p.name ∧ x.score = p.score) :=
  ⟨by decide,
    roster_order_is_join_order
      [Event.request_to_play 1 "Alice" 100, Event.request_to_play 2 "Bob" 101,
        Event.request_to_play 3 "Cara" 102]
      2
      (step (runEvents State.empty [Event.request_to_play 1 "Alice" 100,
        Event.request_to_play 2 "Bob" 101]) (Event.request_to_play 3 "Cara" 102))
      rfl
      ⟨Target.room 100, Payload.game_start [⟨1, "Alice", 0⟩, ⟨2, "Bob", 0⟩, ⟨3, "Cara", 0⟩]⟩
      (by decide) 100 [⟨1, "Alice", 0⟩, ⟨2, "Bob", 0⟩, ⟨3, "Cara", 0⟩] rfl rfl⟩

/-! ## C6, C7: the `opponent` field

`game_over` and `disconnect` address their events through the field `opponent`
of a player record, which no handler ever sets: records are created without it
(lines 23-27) and the only assignment writes `null` (line 122). -/

/-- No record of a state reached from the empty state names an opponent. -/
theorem opponent_never_set (s : State) (h : Reachable s) (c : SocketId) (p : Player)
    (hp : s.players c = some p) : p.opponent = none := by
  obtain ⟨evs, rfl⟩ := h
  revert c p
  refine runEvents_induction (fun s => ∀ c p, s.players c = some p → p.opponent = none)
    ?_ evs State.empty (by intro c p h; simp [State.empty] at h)
  intro s e ih c p hp
  cases e with
  | request_to_play d playerName now =>
    simp only [step, request_to_play_state, joinPlayers, setPlayer] at hp
    split at hp
    · cases hp; rfl
    · exact ih c p hp
  | score_update d score =>
    simp only [step] at hp
    cases hd : s.players d with
    | none =>
      simp only [score_update, hd] at hp
      exact ih c p hp
    | some q =>
      obtain ⟨nm, sc, rm, op⟩ := q
      have hop : op = none := ih d _ hd
      cases rm with
      | none =>
        simp only [score_update, hd] at hp
        exact ih c p hp
      | some roomId =>
        have key : (score_update s d score).state.players =
            setPlayer s.players d ⟨nm, score, some roomId, op⟩ := by
          simp only [score_update, hd]
          split
          · rfl
          · split <;> rfl
        rw [key] at hp
        simp only [setPlayer] at hp
        split at hp
        · cases hp; exact hop
        · exact ih c p hp
  | game_over d =>
    simp only [step, game_over_state] at hp
    exact ih c p hp
  | chat_message d message timestamp =>
    simp only [step, chat_message_state] at hp
    exact ih c p hp
  | disconnect d =>
    simp only [step] at hp
    cases hd : s.players d with
    | none =>
      simp only [disconnect, hd] at hp
      exact ih c p hp
    | some q =>
      have hop : q.opponent = none := ih d _ hd
      simp only [disconnect, hd, hop, deletePlayer] at hp
      split at hp
      · cases hp
      · exact ih c p hp

/-- C6. Alice, Bob and Cara fill `room-100` and report the scores 7, 3 and 3
(respectively 5, 5 and 3); no handler throws.  A `game_over` signal from Alice
then emits nothing at all: no `announce_winner` reaches the room, neither with
Alice's name nor with the tie result. -/
theorem game_over_announces_nothing :
    (trace State.empty [Event.request_to_play 1 "Alice" 100,
        Event.request_to_play 2 "Bob" 101, Event.request_to_play 3 "Cara" 102,
        Event.score_update 1 7, Event.score_update 2 3, Event.score_update 3 3,
        Event.game_over 1]).map (fun o => o.threw)
      = [false, false, false, false, false, false, false] ∧
    (score_update (runEvents State.empty [Event.request_to_play 1 "Alice" 100,
        Event.request_to_play 2 "Bob" 101, Event.request_to_play 3 "Cara" 102,
        Event.score_update 1 7, Event.score_update 2 3]) 3 3).emitted
      = [⟨Target.room 100, Payload.players_update
          [⟨1, "Alice", 7⟩, ⟨2, "Bob", 3⟩, ⟨3, "Cara", 3⟩]⟩] ∧
    (game_over (runEvents State.empty [Event.request_to_play 1 "Alice" 100,
        Event.request_to_play 2 "Bob" 101, Event.request_to_play 3 "Cara" 102,
        Event.score_update 1 7, Event.score_update 2 3, Event.score_update 3 3]) 1).emitted
      = [] ∧
    (game_over (runEvents State.empty [Event.request_to_play 1 "Alice" 100,
        Event.request_to_play 2 "Bob" 101, Event.request_to_play 3 "Cara" 102,
        Event.score_update 1 5, Event.score_update 2 5, Event.score_update 3 3]) 1).emitted
      = [] := by
  decide

/-- C7. Alice, Bob and Cara fill `room-100`; Bob disconnects.  The handler
removes Bob's record and emits nothing: no `OpponentLeft`, no roster update, no
other notification for Alice and Cara. -/
theorem disconnect_notifies_nobody :
    (trace State.empty [Event.request_to_play 1 "Alice" 100,
        Event.request_to_play 2 "Bob" 101, Event.request_to_play 3 "Cara" 102,
        Event.disconnect 2]).map (fun o => (o.threw, o.emitted.length))
      = [(false, 1), (false, 1), (false, 2), (false, 0)] ∧
    (runEvents State.empty [Event.request_to_play 1 "Alice" 100,
        Event.request_to_play 2 "Bob" 101, Event.request_to_play 3 "Cara" 102]).players 2
      = some ⟨"Bob", 0, some 100, none⟩ ∧
    (disconnect (runEvents State.empty [Event.request_to_play 1 "Alice" 100,
        Event.request_to_play 2 "Bob" 101, Event.request_to_play 3 "Cara" 102]) 2).emitted
      = [] ∧
    (disconnect (runEvents State.empty [Event.request_to_play 1 "Alice" 100,
        Event.request_to_play 2 "Bob" 101, Event.request_to_play 3 "Cara" 102]) 2).state.players 2
      = none := by
  decide

/-- In every reachable state neither `game_over` nor `disconnect` emits an
event, whatever the socket. -/
theorem opponent_events_never_emitted (s : State) (h : Reachable s) (c : SocketId) :
    (game_over s c).emitted = [] ∧ (disconnect s c).emitted = [] := by
  cases hc : s.players c with
  | none => simp [game_over, disconnect, hc]
  | some p =>
    have hop : p.opponent = none := opponent_never_set s h c p hc
    simp [game_over, disconnect, hc, hop]

/-! ## C8: effect of `disconnect` -/

/-- The record `disconnect` leaves under a key `q`: none under the key of the
socket itself, the record with `opponent` cleared under the key of a registered
opponent, the old record under every other key. -/
theorem disconnect_players (s : State) (c q : SocketId) :
    (disconnect s c).state.players q =
      if q = c then none
      else match s.players c with
        | none => s.players q
        | some p =>
          if p.opponent = some q then
            (s.players q).map (fun o => { o with opponent := none })
          else s.players q := by
  cases hc : s.players c with
  | none =>
    by_cases hq : q = c
    · subst hq
      simp [disconnect, hc]
    · simp [disconnect, hc, hq]
  | some p =>
    obtain ⟨nm, sc, rm, op⟩ := p
    cases op with
    | none => simp [disconnect, hc, deletePlayer]
    | some o =>
      cases ho : s.players o with
      | none =>
        by_cases hq : q = c
        · simp [disconnect, hc, ho, deletePlayer, hq]
        · by_cases hoq : o = q
          · subst hoq
            simp [disconnect, hc, ho, deletePlayer, hq]
          · simp [disconnect, hc, ho, deletePlayer, hq, hoq]
      | some orec =>
        by_cases hq : q = c
        · simp [disconnect, hc, ho, deletePlayer, hq]
        · by_cases hoq : o = q
          · subst hoq
            simp [disconnect, hc, ho, deletePlayer, setPlayer, hq]
          · have : ¬ q = o := fun h => hoq h.symm
            simp [disconnect, hc, ho, deletePlayer, setPlayer, hq, hoq, this]

/-- The branch of lines 120-124, which no reachable state enters: when the
record of `c` names a registered opponent `o`, `disconnect` emits exactly one
`OpponentLeft` to `o`, clears the `opponent` field of `o` and leaves every
record other than those of `c` and `o` unchanged. -/
theorem disconnect_opponent_branch (s : State) (c o : SocketId) (p orec : Player)
    (hc : s.players c = some p) (hop : p.opponent = some o)
    (ho : s.players o = some orec) :
    (disconnect s c).emitted = [⟨Target.socket o, Payload.OpponentLeft⟩] ∧
    (o ≠ c → (disconnect s c).state.players o = some { orec with opponent := none }) ∧
    (∀ q, q ≠ c → q ≠ o → (disconnect s c).state.players q = s.players q) := by
  refine ⟨?_, ?_, ?_⟩
  · obtain ⟨nm, sc, rm, op⟩ := p
    simp only at hop
    subst hop
    simp [disconnect, hc, ho]
  · intro hoc
    rw [disconnect_players, if_neg hoc]
    simp [hc, hop, ho]
  · intro q hq hqo
    rw [disconnect_players, if_neg hq]
    have : ¬ p.opponent = some q := by
      rw [hop]
      intro h
      exact hqo (Option.some.inj h).symm
    simp [hc, this]

/-- C8. For every state, reachable or not, and every socket id `c`: `disconnect`
completes without throwing and leaves `gameRooms` unchanged; afterwards `c` is
not a key of `players`; the record of every other socket is unchanged and
nothing is emitted, in every state in which the record of `c` names no opponent
(no handler ever stores one: records are created without the field, lines
23-27, and the only write stores `null`, line 122), hence in every reachable
state; and when `c` was not registered beforehand, `players` and `gameRooms`
are unchanged and nothing is emitted. -/
theorem disconnect_effect (s : State) (c : SocketId) :
    (disconnect s c).threw = false ∧
    (disconnect s c).state.gameRooms = s.gameRooms ∧
    (disconnect s c).state.players c = none ∧
    ((∀ p, s.players c = some p → p.opponent = none) →
      (∀ q, q ≠ c → (disconnect s c).state.players q = s.players q) ∧
      (disconnect s c).emitted = []) ∧
    (Reachable s →
      (∀ q, q ≠ c → (disconnect s c).state.players q = s.players q) ∧
      (disconnect s c).emitted = []) ∧
    (s.players c = none → (disconnect s c).state = s ∧ (disconnect s c).emitted = []) := by
  have key : (∀ p, s.players c = some p → p.opponent = none) →
      (∀ q, q ≠ c → (disconnect s c).state.players q = s.players q) ∧
      (disconnect s c).emitted = [] := by
    intro hno
    constructor
    · intro q hq
      rw [disconnect_players]
      simp only [hq, if_false]
      cases hc : s.players c with
      | none => rfl
      | some p => simp [hno p hc]
    · cases hc : s.players c with
      | none => simp [disconnect, hc]
      | some p => simp [disconnect, hc, hno p hc]
  refine ⟨?_, disconnect_gameRooms s c, ?_, key, ?_, ?_⟩
  · unfold disconnect
    split
    · rfl
    · split
      · rfl
      · split <;> rfl
  · rw [disconnect_players]
    simp
  · intro hr
    exact key (fun p hp => opponent_never_set s hr c p hp)
  · intro hc
    simp [disconnect, hc]

/-- Witness of C8.  In the reachable state after the joins of Alice and Bob the
disconnect of Alice keeps Bob's record and emits nothing.  In the unreachable
state `strayPlayers`, where Alice was never assigned a room, her disconnect
keeps every other record and emits nothing, and the disconnect of the
unregistered socket 9 changes nothing. -/
theorem disconnect_effect_witness :
    Reachable (runEvents State.empty [Event.request_to_play 1 "Alice" 100,
        Event.request_to_play 2 "Bob" 101]) ∧
    (∀ p, strayPlayers.players 1 = some p → p.opponent = none) ∧
    strayPlayers.players 9 = none ∧
    ((∀ q, q ≠ 1 →
        (disconnect (runEvents State.empty [Event.request_to_play 1 "Alice" 100,
        Event.request_to_play 2 "Bob" 101]) 1).state.players q =
        (runEvents State.empty [Event.request_to_play 1 "Alice" 100,
        Event.request_to_play 2 "Bob" 101]).players q) ∧
      (disconnect (runEvents State.empty [Event.request_to_play 1 "Alice" 100,
        Event.request_to_play 2 "Bob" 101]) 1).emitted = []) ∧
    ((∀ q, q ≠ 1 → (disconnect strayPlayers 1).state.players q = strayPlayers.players q) ∧
      (disconnect strayPlayers 1).emitted = []) ∧
    (disconnect strayPlayers 1).state.players 1 = none ∧
    (disconnect strayPlayers 1).threw = false ∧
    ((disconnect strayPlayers 9).state = strayPlayers ∧
      (disconnect strayPlayers 9).emitted = []) :=
  have hr : Reachable (runEvents State.empty [Event.request_to_play 1 "Alice" 100,
        Event.request_to_play 2 "Bob" 101]) :=
    ⟨[Event.request_to_play 1 "Alice" 100, Event.request_to_play 2 "Bob" 101], rfl⟩
  have h1 : ∀ p, strayPlayers.players 1 = some p → p.opponent = none := by
    intro p hp
    have : strayPlayers.players 1 = some ⟨"Alice", 0, none, none⟩ := by decide
    rw [this] at hp
    cases hp
    rfl
  have h9 : strayPlayers.players 9 = none := by decide
  ⟨hr, h1, h9,
    (disconnect_effect (runEvents State.empty [Event.request_to_play 1 "Alice" 100,
        Event.request_to_play 2 "Bob" 101]) 1).2.2.2.2.1 hr,
    (disconnect_effect strayPlayers 1).2.2.2.1 h1,
    (disconnect_effect strayPlayers 1).2.2.1,
    (disconnect_effect strayPlayers 1).1,
    (disconnect_effect strayPlayers 9).2.2.2.2.2 h9⟩

/-! ## C9: a second `request_to_play` from a registered socket -/

/-- The member array of the chosen room after a join is the array the room had
(empty for a room that is created) followed by the joiner. -/
theorem getRoom_joinRooms_chosen (g : Rooms) (c : SocketId) (now : Nat) :
    ∃ ms, getRoom (joinRooms g c now) (chosenRoom g now) = some (ms ++ [c]) ∧
      ((scanRooms g = some (chosenRoom g now) ∧ getRoom g (chosenRoom g now) = some ms) ∨
        (scanRooms g = none ∧ chosenRoom g now = now ∧ ms = [])) := by
  cases hs : scanRooms g with
  | none =>
    have hc : chosenRoom g now = now := by simp [chosenRoom, hs]
    rw [hc]
    exact ⟨[], getRoom_joinRooms_created hs c now, Or.inr ⟨rfl, rfl, rfl⟩⟩
  | some q =>
    have hc : chosenRoom g now = q := by simp [chosenRoom, hs]
    rw [hc]
    obtain ⟨ms, h0, -, h1⟩ := getRoom_joinRooms_found hs c now
    exact ⟨ms, h1, Or.inl ⟨rfl, h0⟩⟩

/-- The result of `request_to_play` when the roster can be built. -/
theorem request_to_play_emitted (s : State) (c : SocketId) (playerName : String)
    (now : Nat) (h : (request_to_play s c playerName now).threw = false) :
    ∃ ms roster,
      getRoom (joinRooms s.gameRooms c now) (chosenRoom s.gameRooms now) = some ms ∧
      playersInRoom (joinPlayers s c playerName now) ms = some roster ∧
      (request_to_play s c playerName now).emitted =
        ⟨Target.room (chosenRoom s.gameRooms now),
          Payload.waiting_for_players ms.length REQUIRED_PLAYERS roster⟩ ::
        (if ms.length = REQUIRED_PLAYERS then
          [⟨Target.room (chosenRoom s.gameRooms now), Payload.game_start roster⟩]
        else []) := by
  cases hm : getRoom (joinRooms s.gameRooms c now) (chosenRoom s.gameRooms now) with
  | none => simp [request_to_play, hm] at h
  | some ms =>
    cases hr : playersInRoom (joinPlayers s c playerName now) ms with
    | none => simp [request_to_play, hm, hr] at h
    | some roster =>
      refine ⟨ms, roster, rfl, hr, ?_⟩
      simp [request_to_play, hm, hr]

/-- Counterexample to C9 as stated: Alice (socket 1) is registered in
`room-100` with score 7; a second `request_to_play` from socket 1 replaces her
record (new name, score 0), pushes her id again, so that `room-100` holds
`[1, 1]`, and emits `waiting_for_players`. -/
theorem duplicate_request_not_rejected :
    (runEvents State.empty [Event.request_to_play 1 "Alice" 100,
        Event.score_update 1 7]).players 1 = some ⟨"Alice", 7, some 100, none⟩ ∧
    getRoom (runEvents State.empty [Event.request_to_play 1 "Alice" 100,
        Event.score_update 1 7]).gameRooms 100 = some [1] ∧
    (request_to_play (runEvents State.empty [Event.request_to_play 1 "Alice" 100,
        Event.score_update 1 7]) 1 "Al" 101).state.players 1
      = some ⟨"Al", 0, some 100, none⟩ ∧
    getRoom (request_to_play (runEvents State.empty [Event.request_to_play 1 "Alice" 100,
        Event.score_update 1 7]) 1 "Al" 101).state.gameRooms 100 = some [1, 1] ∧
    (request_to_play (runEvents State.empty [Event.request_to_play 1 "Alice" 100,
        Event.score_update 1 7]) 1 "Al" 101).emitted
      = [⟨Target.room 100, Payload.waiting_for_players 2 3
          [⟨1, "Al", 0⟩, ⟨1, "Al", 0⟩]⟩] ∧
    (request_to_play (runEvents State.empty [Event.request_to_play 1 "Alice" 100,
        Event.score_update 1 7]) 1 "Al" 101).threw = false := by
  decide

/-- C9 (amended). A `request_to_play` from a socket `c` is handled in the same
way whether or not `c` is already registered; no request is rejected.  The
record of `c` becomes a new one with the given name, score 0 and the chosen
room; every other record is unchanged; the id of `c` is pushed (once more) onto
the member array of the chosen room, which is the array the room had before, or
the empty one for a room that is created; every other room is unchanged; and
unless the roster build throws, `waiting_for_players` is emitted to the chosen
room, followed by `game_start` when the array has reached three ids. -/
theorem duplicate_request_is_processed (s : State) (c : SocketId) (playerName : String)
    (now : Nat) :
    (request_to_play s c playerName now).state.players c =
      some ⟨playerName, 0, some (chosenRoom s.gameRooms now), none⟩ ∧
    (∀ q, q ≠ c → (request_to_play s c playerName now).state.players q = s.players q) ∧
    (∃ ms, getRoom (request_to_play s c playerName now).state.gameRooms
          (chosenRoom s.gameRooms now) = some (ms ++ [c]) ∧
        (getRoom s.gameRooms (chosenRoom s.gameRooms now) = some ms ∨
          (scanRooms s.gameRooms = none ∧ ms = []))) ∧
    (∀ q, q ≠ chosenRoom s.gameRooms now →
      getRoom (request_to_play s c playerName now).state.gameRooms q = getRoom s.gameRooms q) ∧
    ((request_to_play s c playerName now).threw = false →
      ∃ ms roster,
        getRoom (request_to_play s c playerName now).state.gameRooms
          (chosenRoom s.gameRooms now) = some ms ∧
        playersInRoom (request_to_play s c playerName now).state.players ms = some roster ∧
        (request_to_play s c playerName now).emitted =
          ⟨Target.room (chosenRoom s.gameRooms now),
            Payload.waiting_for_players ms.length REQUIRED_PLAYERS roster⟩ ::
          (if ms.length = REQUIRED_PLAYERS then
            [⟨Target.room (chosenRoom s.gameRooms now), Payload.game_start roster⟩]
          else [])) := by
  rw [request_to_play_state]
  refine ⟨by simp [joinPlayers, setPlayer], ?_, ?_, ?_, ?_⟩
  · intro q hq
    simp [joinPlayers, setPlayer, hq]
  · obtain ⟨ms, h1, h2⟩ := getRoom_joinRooms_chosen s.gameRooms c now
    refine ⟨ms, h1, ?_⟩
    rcases h2 with ⟨-, h⟩ | ⟨h, -, h3⟩
    · exact Or.inl h
    · exact Or.inr ⟨h, h3⟩
  · intro q hq
    exact getRoom_joinRooms_ne _ _ _ hq
  · intro h
    exact request_to_play_emitted s c playerName now h

/-- Witness of C9 (amended): the second request of socket 1 does not throw and
emits `waiting_for_players` for the array `[1, 1]`. -/
theorem duplicate_request_is_processed_witness :
    (request_to_play (runEvents State.empty [Event.request_to_play 1 "Alice" 100,
        Event.score_update 1 7]) 1 "Al" 101).threw = false ∧
    ∃ ms roster,
      getRoom (request_to_play (runEvents State.empty [Event.request_to_play 1 "Alice" 100,
          Event.score_update 1 7]) 1 "Al" 101).state.gameRooms
        (chosenRoom (runEvents State.empty [Event.request_to_play 1 "Alice" 100,
          Event.score_update 1 7]).gameRooms 101) = some ms ∧
      playersInRoom (request_to_play (runEvents State.empty
          [Event.request_to_play 1 "Alice" 100, Event.score_update 1 7]) 1 "Al"
          101).state.players ms = some roster ∧
      (request_to_play (runEvents State.empty [Event.request_to_play 1 "Alice" 100,
          Event.score_update 1 7]) 1 "Al" 101).emitted =
        ⟨Target.room (chosenRoom (runEvents State.empty
            [Event.request_to_play 1 "Alice" 100, Event.score_update 1 7]).gameRooms 101),
          Payload.waiting_for_players ms.length REQUIRED_PLAYERS roster⟩ ::
        (if ms.length = REQUIRED_PLAYERS then
          [⟨Target.room (chosenRoom (runEvents State.empty
            [Event.request_to_play 1 "Alice" 100, Event.score_update 1 7]).gameRooms 101),
            Payload.game_start roster⟩]
        else []) :=
  ⟨by decide,
    (duplicate_request_is_processed (runEvents State.empty
      [Event.request_to_play 1 "Alice" 100, Event.score_update 1 7]) 1 "Al" 101).2.2.2.2
      (by decide)⟩

/-! ## C10: room fields and member arrays -/

/-- The record `score_update` leaves under a key `q`. -/
theorem score_update_players (s : State) (c : SocketId) (score : Int) (q : SocketId) :
    (score_update s c score).state.players q =
      if q = c then
        (s.players c).map (fun p => if p.room.isSome then { p with score := score } else p)
      else s.players q := by
  cases hc : s.players c with
  | none =>
    by_cases hq : q = c
    · subst hq
      simp [score_update, hc]
    · simp [score_update, hc, hq]
  | some p =>
    obtain ⟨nm, sc, rm, op⟩ := p
    cases rm with
    | none =>
      by_cases hq : q = c
      · subst hq
        simp [score_update, hc]
      · simp [score_update, hc, hq]
    | some roomId =>
      have key : (score_update s c score).state.players =
          setPlayer s.players c ⟨nm, score, some roomId, op⟩ := by
        simp only [score_update, hc]
        split
        · rfl
        · split <;> rfl
      rw [key]
      by_cases hq : q = c
      · simp [setPlayer, hq]
      · simp [setPlayer, hq]

/-- Every handler other than `request_to_play` leaves `gameRooms` and the room
field of every record it keeps as they were. -/
theorem step_keeps_rooms (s : State) (e : Event)
    (hne : ∀ c playerName now, e ≠ Event.request_to_play c playerName now) :
    (step s e).state.gameRooms = s.gameRooms ∧
    ∀ q rec, (step s e).state.players q = some rec →
      ∃ old, s.players q = some old ∧ rec.room = old.room := by
  cases e with
  | request_to_play c playerName now => exact absurd rfl (hne c playerName now)
  | score_update c score =>
    refine ⟨score_update_gameRooms s c score, ?_⟩
    intro q rec h
    simp only [step] at h
    rw [score_update_players] at h
    by_cases hq : q = c
    · subst hq
      rw [if_pos rfl] at h
      cases hc : s.players q with
      | none => simp [hc] at h
      | some p =>
        simp only [hc, Option.map_some', Option.some.injEq] at h
        refine ⟨p, rfl, ?_⟩
        subst h
        split <;> rfl
    · rw [if_neg hq] at h
      exact ⟨rec, h, rfl⟩
  | game_over c =>
    rw [show step s (Event.game_over c) = game_over s c from rfl, game_over_state]
    exact ⟨rfl, fun q rec h => ⟨rec, h, rfl⟩⟩
  | chat_message c message timestamp =>
    rw [show step s (Event.chat_message c message timestamp) =
      chat_message s c message timestamp from rfl, chat_message_state]
    exact ⟨rfl, fun q rec h => ⟨rec, h, rfl⟩⟩
  | disconnect c =>
    refine ⟨disconnect_gameRooms s c, ?_⟩
    intro q rec h
    simp only [step] at h
    rw [disconnect_players] at h
    by_cases hq : q = c
    · simp [hq] at h
    · rw [if_neg hq] at h
      cases hc : s.players c with
      | none =>
        simp only [hc] at h
        exact ⟨rec, h, rfl⟩
      | some p =>
        simp only [hc] at h
        split at h
        · cases hq2 : s.players q with
          | none => simp [hq2] at h
          | some o =>
            simp only [hq2, Option.map_some', Option.some.injEq] at h
            exact ⟨o, rfl, by subst h; rfl⟩
        · exact ⟨rec, h, rfl⟩

theorem roomsExist_step {s : State} (h : RoomsExist s) (e : Event) :
    RoomsExist (step s e).state := by
  by_cases hj : ∃ c playerName now, e = Event.request_to_play c playerName now
  · obtain ⟨c, playerName, now, rfl⟩ := hj
    intro p rec hp
    simp only [step, request_to_play_state, joinPlayers, setPlayer] at hp ⊢
    obtain ⟨ms, hch, -⟩ := getRoom_joinRooms_chosen s.gameRooms c now
    split at hp
    · cases hp
      exact ⟨_, rfl, by rw [hch]; rfl⟩
    · obtain ⟨r, hr, hex⟩ := h p rec hp
      refine ⟨r, hr, ?_⟩
      by_cases hrc : r = chosenRoom s.gameRooms now
      · rw [hrc, hch]; rfl
      · rw [getRoom_joinRooms_ne _ _ _ hrc]; exact hex
  · have hne : ∀ c playerName now, e ≠ Event.request_to_play c playerName now :=
      fun c playerName now he => hj ⟨c, playerName, now, he⟩
    obtain ⟨hg, hpl⟩ := step_keeps_rooms s e hne
    intro p rec hp
    obtain ⟨old, ho, hroom⟩ := hpl p rec hp
    obtain ⟨r, hr, hex⟩ := h p old ho
    exact ⟨r, by rw [hroom]; exact hr, by rw [hg]; exact hex⟩

theorem membersListed_step {s : State} (h : MembersListed s) (e : Event)
    (hf : freshEvent s e = true) : MembersListed (step s e).state := by
  by_cases hj : ∃ c playerName now, e = Event.request_to_play c playerName now
  · obtain ⟨c, playerName, now, rfl⟩ := hj
    intro p rec hp
    simp only [step, request_to_play_state, joinPlayers, setPlayer] at hp ⊢
    obtain ⟨ms, hch, hprev⟩ := getRoom_joinRooms_chosen s.gameRooms c now
    split at hp
    · rename_i hpc
      cases hp
      exact ⟨_, _, rfl, hch, by simp [hpc]⟩
    · obtain ⟨r, ms0, hr, hms0, hmem⟩ := h p rec hp
      by_cases hrc : r = chosenRoom s.gameRooms now
      · rcases hprev with ⟨-, hold⟩ | ⟨hnone, hnow, -⟩
        · rw [← hrc, hms0] at hold
          cases hold
          exact ⟨r, ms ++ [c], hr, by rw [hrc]; exact hch, by simp [hmem]⟩
        · simp only [freshEvent, hnone, Option.isSome_none, Bool.false_or,
            Option.isNone_iff_eq_none] at hf
          rw [hrc, hnow, hf] at hms0
          cases hms0
      · exact ⟨r, ms0, hr, by rw [getRoom_joinRooms_ne _ _ _ hrc]; exact hms0, hmem⟩
  · have hne : ∀ c playerName now, e ≠ Event.request_to_play c playerName now :=
      fun c playerName now he => hj ⟨c, playerName, now, he⟩
    obtain ⟨hg, hpl⟩ := step_keeps_rooms s e hne
    intro p rec hp
    obtain ⟨old, ho, hroom⟩ := hpl p rec hp
    obtain ⟨r, ms, hr, hms, hmem⟩ := h p old ho
    exact ⟨r, ms, by rw [hroom]; exact hr, by rw [hg]; exact hms, hmem⟩

/-- Induction over runs in which every generated room id is fresh. -/
theorem runEvents_fresh_induction (P : State → Prop)
    (hstep : ∀ s e, P s → freshEvent s e = true → P (step s e).state) :
    ∀ (evs : List Event) (s : State), P s → freshRun s evs = true → P (runEvents s evs) := by
  intro evs
  induction evs with
  | nil => intro s hs _; exact hs
  | cons e es ih =>
    intro s hs hf
    simp only [freshRun, Bool.and_eq_true] at hf
    simp only [runEvents]
    cases ht : (step s e).threw with
    | true => simpa using hstep s e hs hf.1
    | false =>
      simp only [ht] at hf ⊢
      exact ih _ (hstep s e hs hf.1) (by simpa using hf.2)

/-- Counterexample to C10 as stated: after Alice (socket 1) joined `room-100` and
disconnected, no handler having thrown, her id still occurs in the member array
of `room-100` although socket 1 is not a registered player. -/
theorem departed_id_stays_in_room :
    (trace State.empty [Event.request_to_play 1 "Alice" 100, Event.disconnect 1]).map
        (fun o => o.threw) = [false, false] ∧
    getRoom (runEvents State.empty
        [Event.request_to_play 1 "Alice" 100, Event.disconnect 1]).gameRooms 100 = some [1] ∧
    (runEvents State.empty
        [Event.request_to_play 1 "Alice" 100, Event.disconnect 1]).players 1 = none ∧
    ¬ (∀ (p : SocketId) (r : RoomId),
        (∃ rec, (runEvents State.empty [Event.request_to_play 1 "Alice" 100,
            Event.disconnect 1]).players p = some rec ∧ rec.room = some r) ↔
        (∃ ms, getRoom (runEvents State.empty [Event.request_to_play 1 "Alice" 100,
            Event.disconnect 1]).gameRooms r = some ms ∧ p ∈ ms)) := by
  refine ⟨by decide, by decide, by decide, ?_⟩
  intro h
  have h1 := (h 1 100).2 ⟨[1], by decide, by decide⟩
  obtain ⟨rec, hrec, -⟩ := h1
  have hn : (runEvents State.empty
      [Event.request_to_play 1 "Alice" 100, Event.disconnect 1]).players 1 = none := by decide
  rw [hn] at hrec
  cases hrec

/-- C10 (amended). In every state reached from the empty state by a sequence of
events, every registered socket has a non-null room field and that field names
a room that exists in `gameRooms`; and when every room id generated along the
sequence was fresh, every registered socket `p` whose room field is `r` occurs
in the member array `gameRooms[r]`.  (The converse is not claimed: ids of
departed sockets stay in the member arrays.) -/
theorem room_reference_consistency (evs : List Event) :
    (∀ p rec, (runEvents State.empty evs).players p = some rec →
      ∃ r, rec.room = some r ∧
        (getRoom (runEvents State.empty evs).gameRooms r).isSome = true) ∧
    (freshRun State.empty evs = true →
      ∀ p rec r, (runEvents State.empty evs).players p = some rec → rec.room = some r →
        ∃ ms, getRoom (runEvents State.empty evs).gameRooms r = some ms ∧ p ∈ ms) := by
  constructor
  · exact runEvents_induction RoomsExist (fun s e hs => roomsExist_step hs e) evs State.empty
      (by intro p rec h; simp [State.empty] at h)
  · intro hf p rec r hp hr
    have := runEvents_fresh_induction MembersListed
      (fun s e hs hfe => membersListed_step hs e hfe) evs State.empty
      (by intro p rec h; simp [State.empty] at h) hf
    obtain ⟨r1, ms, hr1, hms, hmem⟩ := this p rec hp
    rw [hr] at hr1
    cases hr1
    exact ⟨ms, hms, hmem⟩

/-- Witness of C10 (amended): after the joins of Alice, Bob, Cara and Dan with
fresh room ids, Dan (socket 4) is registered with the room `room-103`, which
exists and lists him. -/
theorem room_reference_consistency_witness :
    freshRun State.empty [Event.request_to_play 1 "Alice" 100,
      Event.request_to_play 2 "Bob" 101, Event.request_to_play 3 "Cara" 102,
      Event.request_to_play 4 "Dan" 103] = true ∧
    (runEvents State.empty [Event.request_to_play 1 "Alice" 100,
      Event.request_to_play 2 "Bob" 101, Event.request_to_play 3 "Cara" 102,
      Event.request_to_play 4 "Dan" 103]).players 4 = some ⟨"Dan", 0, some 103, none⟩ ∧
    (∃ r, (⟨"Dan", 0, some 103, none⟩ : Player).room = some r ∧
      (getRoom (runEvents State.empty [Event.request_to_play 1 "Alice" 100,
        Event.request_to_play 2 "Bob" 101, Event.request_to_play 3 "Cara" 102,
        Event.request_to_play 4 "Dan" 103]).gameRooms r).isSome = true) ∧
    ∃ ms, getRoom (runEvents State.empty [Event.request_to_play 1 "Alice" 100,
        Event.request_to_play 2 "Bob" 101, Event.request_to_play 3 "Cara" 102,
        Event.request_to_play 4 "Dan" 103]).gameRooms 103 = some ms ∧ 4 ∈ ms :=
  ⟨by decide, by decide,
    (room_reference_consistency [Event.request_to_play 1 "Alice" 100,
      Event.request_to_play 2 "Bob" 101, Event.request_to_play 3 "Cara" 102,
      Event.request_to_play 4 "Dan" 103]).1 4 ⟨"Dan", 0, some 103, none⟩ (by decide),
    (room_reference_consistency [Event.request_to_play 1 "Alice" 100,
      Event.request_to_play 2 "Bob" 101, Event.request_to_play 3 "Cara" 102,
      Event.request_to_play 4 "Dan" 103]).2 (by decide) 4 ⟨"Dan", 0, some 103, none⟩ 103
      (by decide) rfl⟩

/-! ## C11: chat relay -/

/-- C11. For every state and every `chat_message` with text `m` from a socket
`c`: when `c` is registered with an assigned room `r`, the handler emits to `r`
exactly one `chat_message` event, whose sender is the stored name of `c` and
whose message is `m`; when `c` is not registered or has no room, nothing is
emitted; in both cases the handler does not throw and `players` and `gameRooms`
are unchanged. -/
theorem chat_relay (s : State) (c : SocketId) (m timestamp : String) :
    (chat_message s c m timestamp).state = s ∧
    (chat_message s c m timestamp).threw = false ∧
    (∀ p r, s.players c = some p → p.room = some r →
      (chat_message s c m timestamp).emitted =
        [⟨Target.room r, Payload.chat_message p.name m timestamp⟩]) ∧
    ((s.players c = none ∨ ∃ p, s.players c = some p ∧ p.room = none) →
      (chat_message s c m timestamp).emitted = []) := by
  refine ⟨chat_message_state s c m timestamp, ?_, ?_, ?_⟩
  · unfold chat_message
    split
    · rfl
    · split <;> rfl
  · intro p r hp hr
    simp [chat_message, hp, hr]
  · rintro (hc | ⟨p, hp, hr⟩)
    · simp [chat_message, hc]
    · simp [chat_message, hp, hr]

/-- Witness of C11: after the joins of Alice and Bob, a message of Bob is
relayed once to `room-100` under his name, and a message of the unregistered
socket 9 is dropped. -/
theorem chat_relay_witness :
    (runEvents State.empty [Event.request_to_play 1 "Alice" 100,
        Event.request_to_play 2 "Bob" 101]).players 2 = some ⟨"Bob", 0, some 100, none⟩ ∧
    (chat_message (runEvents State.empty [Event.request_to_play 1 "Alice" 100,
        Event.request_to_play 2 "Bob" 101]) 2 "hello" "10:15:00").emitted =
      [⟨Target.room 100, Payload.chat_message "Bob" "hello" "10:15:00"⟩] ∧
    (chat_message (runEvents State.empty [Event.request_to_play 1 "Alice" 100,
        Event.request_to_play 2 "Bob" 101]) 9 "hello" "10:15:00").emitted = [] :=
  ⟨by decide,
    (chat_relay (runEvents State.empty [Event.request_to_play 1 "Alice" 100,
        Event.request_to_play 2 "Bob" 101]) 2 "hello" "10:15:00").2.2.1
      ⟨"Bob", 0, some 100, none⟩ 100 (by decide) rfl,
    (chat_relay (runEvents State.empty [Event.request_to_play 1 "Alice" 100,
        Event.request_to_play 2 "Bob" 101]) 9 "hello" "10:15:00").2.2.2
      (Or.inl (by decide))⟩

/-! ## C12: the id of a created room -/

/-- C12. Alice, Bob and Cara fill `room-100`, created when `Date.now()` was 100.
Dan's `request_to_play` finds no room with a free place; with `Date.now()`
again 100 the id it generates is the id of the existing room: line 40 replaces
the member array `[1, 2, 3]` of `room-100` by `[]` and Dan is pushed onto it.
The member array of an existing room has changed, and Alice's record still
names `room-100`. -/
theorem created_room_id_not_fresh :
    (trace State.empty [Event.request_to_play 1 "Alice" 100,
        Event.request_to_play 2 "Bob" 100, Event.request_to_play 3 "Cara" 100,
        Event.request_to_play 4 "Dan" 100]).map (fun o => o.threw)
      = [false, false, false, false] ∧
    scanRooms (runEvents State.empty [Event.request_to_play 1 "Alice" 100,
        Event.request_to_play 2 "Bob" 100, Event.request_to_play 3 "Cara" 100]).gameRooms
      = none ∧
    (runEvents State.empty [Event.request_to_play 1 "Alice" 100,
        Event.request_to_play 2 "Bob" 100, Event.request_to_play 3 "Cara" 100]).gameRooms
      = [(100, [1, 2, 3])] ∧
    chosenRoom (runEvents State.empty [Event.request_to_play 1 "Alice" 100,
        Event.request_to_play 2 "Bob" 100, Event.request_to_play 3 "Cara" 100]).gameRooms 100
      = 100 ∧
    (request_to_play (runEvents State.empty [Event.request_to_play 1 "Alice" 100,
        Event.request_to_play 2 "Bob" 100, Event.request_to_play 3 "Cara" 100])
        4 "Dan" 100).state.gameRooms = [(100, [4])] ∧
    (request_to_play (runEvents State.empty [Event.request_to_play 1 "Alice" 100,
        Event.request_to_play 2 "Bob" 100, Event.request_to_play 3 "Cara" 100])
        4 "Dan" 100).state.players 1 = some ⟨"Alice", 0, some 100, none⟩ := by
  decide

/-! ## C15: state effect of a score report -/

/-- C15. For every state and every `score_update` with value `score` from a
socket `c`: when `c` is registered with an assigned room, afterwards the stored
score of `c` is `score` (whatever it was before), its name, room and opponent
are unchanged, the record of every other socket is unchanged and `gameRooms` is
unchanged; when `c` is not registered or has no room, the state is unchanged
and nothing is emitted. -/
theorem score_report_effect (s : State) (c : SocketId) (score : Int) :
    (∀ p r, s.players c = some p → p.room = some r →
      (score_update s c score).state.players c =
        some ⟨p.name, score, p.room, p.opponent⟩ ∧
      (∀ q, q ≠ c → (score_update s c score).state.players q = s.players q) ∧
      (score_update s c score).state.gameRooms = s.gameRooms) ∧
    ((s.players c = none ∨ ∃ p, s.players c = some p ∧ p.room = none) →
      (score_update s c score).state = s ∧ (score_update s c score).emitted = [] ∧
      (score_update s c score).threw = false) := by
  constructor
  · intro p r hp hr
    refine ⟨?_, ?_, score_update_gameRooms s c score⟩
    · rw [score_update_players]
      simp [hp, hr]
    · intro q hq
      rw [score_update_players]
      simp [hq]
  · rintro (hc | ⟨p, hp, hr⟩)
    · simp [score_update, hc]
    · simp [score_update, hp, hr]

/-- Witness of C15: Bob's stored score is 10; a report of 4 overwrites it with
the lower value and keeps his name and room, and a report of the unregistered
socket 9 changes nothing. -/
theorem score_report_effect_witness :
    (runEvents State.empty [Event.request_to_play 1 "Alice" 100,
        Event.request_to_play 2 "Bob" 101, Event.score_update 2 10]).players 2
      = some ⟨"Bob", 10, some 100, none⟩ ∧
    (score_update (runEvents State.empty [Event.request_to_play 1 "Alice" 100,
        Event.request_to_play 2 "Bob" 101, Event.score_update 2 10]) 2 4).state.players 2
      = some ⟨"Bob", 4, some 100, none⟩ ∧
    (score_update (runEvents State.empty [Event.request_to_play 1 "Alice" 100,
        Event.request_to_play 2 "Bob" 101, Event.score_update 2 10]) 9 4).emitted = [] :=
  ⟨by decide,
    ((score_report_effect (runEvents State.empty [Event.request_to_play 1 "Alice" 100,
        Event.request_to_play 2 "Bob" 101, Event.score_update 2 10]) 2 4).1
      ⟨"Bob", 10, some 100, none⟩ 100 (by decide) rfl).1,
    ((score_report_effect (runEvents State.empty [Event.request_to_play 1 "Alice" 100,
        Event.request_to_play 2 "Bob" 101, Event.score_update 2 10]) 9 4).2
      (Or.inl (by decide))).2.1⟩

/-! ## C17: `game_over` from a socket that is not registered -/

/-- C17. A `game_over` signal from socket 1 in the empty state (a client that
connected and has not asked to play) ends with a `TypeError`: line 88 reads
`player.opponent` while `player` is `undefined`.  In general `game_over`
leaves `players` and `gameRooms` unchanged, and it throws exactly when the
socket is not registered. -/
theorem game_over_throws_when_unregistered :
    (game_over State.empty 1).threw = true ∧
    (game_over State.empty 1).emitted = [] ∧
    ∀ (s : State) (c : SocketId),
      (game_over s c).state = s ∧ ((game_over s c).threw = true ↔ s.players c = none) := by
  refine ⟨by decide, by decide, ?_⟩
  intro s c
  refine ⟨game_over_state s c, ?_⟩
  cases hc : s.players c with
  | none => simp [game_over, hc]
  | some p =>
    obtain ⟨nm, sc, rm, op⟩ := p
    cases op with
    | none => simp [game_over, hc]
    | some o =>
      cases ho : s.players o with
      | none => simp [game_over, hc, ho]
      | some q => simp [game_over, hc, ho]

/-! ## C13: first-fit assignment -/

theorem scanStep_none (g : Rooms) (k : RoomId) :
    scanStep g none k = if hasFreePlace g k = true then some k else none := by
  unfold scanStep hasFreePlace
  cases getRoom g k with
  | none => simp
  | some ms => by_cases h : ms.length < REQUIRED_PLAYERS <;> simp [h]

theorem foldl_scanStep_all_full (g : Rooms) (ks : List RoomId)
    (h : ∀ k ∈ ks, hasFreePlace g k = false) : List.foldl (scanStep g) none ks = none := by
  induction ks with
  | nil => rfl
  | cons k ks ih =>
    rw [List.foldl_cons, scanStep_none, h k (List.mem_cons_self _ _)]
    exact ih (fun q hq => h q (List.mem_cons_of_mem _ hq))

theorem foldl_scanStep_first (g : Rooms) (pre : List RoomId) (r : RoomId)
    (post : List RoomId) (hpre : ∀ k ∈ pre, hasFreePlace g k = false)
    (hr : hasFreePlace g r = true) :
    List.foldl (scanStep g) none (pre ++ r :: post) = some r := by
  induction pre with
  | nil =>
    rw [List.nil_append, List.foldl_cons, scanStep_none, if_pos hr]
    exact foldl_scanStep_some g r post
  | cons k ks ih =>
    rw [List.cons_append, List.foldl_cons, scanStep_none, hpre k (List.mem_cons_self _ _)]
    exact ih (fun q hq => hpre q (List.mem_cons_of_mem _ hq))

/-- The scan either finds every key full, or stops at the first key with a
free place. -/
theorem first_free_split (g : Rooms) (ks : List RoomId) :
    (∀ k ∈ ks, hasFreePlace g k = false) ∨
    ∃ pre r post, ks = pre ++ r :: post ∧ (∀ k ∈ pre, hasFreePlace g k = false) ∧
      hasFreePlace g r = true := by
  induction ks with
  | nil => left; intro k hk; cases hk
  | cons k ks ih =>
    cases hk : hasFreePlace g k with
    | true => exact Or.inr ⟨[], k, ks, rfl, (fun q hq => by cases hq), hk⟩
    | false =>
      rcases ih with h | ⟨pre, r, post, h1, h2, h3⟩
      · left
        intro q hq
        rcases List.mem_cons.1 hq with rfl | hq
        · exact hk
        · exact h q hq
      · right
        refine ⟨k :: pre, r, post, by rw [h1]; rfl, ?_, h3⟩
        intro q hq
        rcases List.mem_cons.1 hq with rfl | hq
        · exact hk
        · exact h2 q hq

theorem scanRooms_eq_none_iff (g : Rooms) :
    scanRooms g = none ↔ ∀ k ∈ g.map Prod.fst, hasFreePlace g k = false := by
  constructor
  · intro h
    rcases first_free_split g (g.map Prod.fst) with hall | ⟨pre, r, post, h1, h2, h3⟩
    · exact hall
    · have := foldl_scanStep_first g pre r post h2 h3
      unfold scanRooms at h
      rw [h1, this] at h
      cases h
  · intro h
    exact foldl_scanStep_all_full g _ h

theorem getRoom_isSome_of_mem_keys {g : Rooms} {k : RoomId} (h : k ∈ g.map Prod.fst) :
    ∃ ms, getRoom g k = some ms := by
  induction g with
  | nil => simp at h
  | cons e rest ih =>
    obtain ⟨q, v⟩ := e
    by_cases hq : q = k
    · exact ⟨v, by simp [getRoom, hq]⟩
    · simp only [List.map_cons, List.mem_cons] at h
      rcases h with h | h
      · exact absurd h.symm hq
      · obtain ⟨ms, hms⟩ := ih h
        exact ⟨ms, by simp [getRoom, hq, hms]⟩

theorem mem_keys_of_getRoom {g : Rooms} {k : RoomId} {ms : List SocketId}
    (h : getRoom g k = some ms) : k ∈ g.map Prod.fst :=
  List.mem_map.2 ⟨(k, ms), mem_of_getRoom h, rfl⟩

/-- C13. For every state and every `request_to_play`: the joiner is appended to
the chosen room and to no other; when some existing room has fewer than 3
members, the chosen room is the first key of `gameRooms`, in key (creation)
order, whose room has fewer than 3 members; and a new room is created exactly
when no existing room has fewer than 3 members, which, in a state that
satisfies the capacity bound of C1, means that every existing room has exactly
3 members. -/
theorem first_fit_assignment (s : State) (c : SocketId) (playerName : String) (now : Nat) :
    (∃ ms, getRoom (request_to_play s c playerName now).state.gameRooms
        (chosenRoom s.gameRooms now) = some (ms ++ [c]) ∧
      (getRoom s.gameRooms (chosenRoom s.gameRooms now) = some ms ∨
        (scanRooms s.gameRooms = none ∧ ms = []))) ∧
    (∀ q, q ≠ chosenRoom s.gameRooms now →
      getRoom (request_to_play s c playerName now).state.gameRooms q =
        getRoom s.gameRooms q) ∧
    ((∃ k ∈ s.gameRooms.map Prod.fst, hasFreePlace s.gameRooms k = true) →
      scanRooms s.gameRooms = some (chosenRoom s.gameRooms now) ∧
      ∃ pre post, s.gameRooms.map Prod.fst = pre ++ chosenRoom s.gameRooms now :: post ∧
        (∀ k ∈ pre, hasFreePlace s.gameRooms k = false) ∧
        hasFreePlace s.gameRooms (chosenRoom s.gameRooms now) = true) ∧
    (scanRooms s.gameRooms = none ↔
      ∀ k ∈ s.gameRooms.map Prod.fst, hasFreePlace s.gameRooms k = false) ∧
    (Bounded s.gameRooms →
      (scanRooms s.gameRooms = none ↔
        ∀ r ms, getRoom s.gameRooms r = some ms → ms.length = 3)) := by
  refine ⟨?_, ?_, ?_, scanRooms_eq_none_iff s.gameRooms, ?_⟩
  · rw [request_to_play_state]
    obtain ⟨ms, h1, h2⟩ := getRoom_joinRooms_chosen s.gameRooms c now
    refine ⟨ms, h1, ?_⟩
    rcases h2 with ⟨-, h⟩ | ⟨h, -, h3⟩
    · exact Or.inl h
    · exact Or.inr ⟨h, h3⟩
  · intro q hq
    rw [request_to_play_state]
    exact getRoom_joinRooms_ne _ _ _ hq
  · rintro ⟨k, hk, hfree⟩
    rcases first_free_split s.gameRooms (s.gameRooms.map Prod.fst) with
      hall | ⟨pre, r, post, h1, h2, h3⟩
    · rw [hall k hk] at hfree
      cases hfree
    · have hscan : scanRooms s.gameRooms = some r := by
        unfold scanRooms
        rw [h1]
        exact foldl_scanStep_first _ pre r post h2 h3
      have hc : chosenRoom s.gameRooms now = r := by simp [chosenRoom, hscan]
      rw [hc]
      exact ⟨hscan, pre, post, h1, h2, h3⟩
  · intro hb
    rw [scanRooms_eq_none_iff]
    constructor
    · intro h r ms hms
      have h1 := h r (mem_keys_of_getRoom hms)
      have h2 := hb _ (mem_of_getRoom hms)
      simp only [hasFreePlace, hms, decide_eq_false_iff_not, REQUIRED_PLAYERS] at h1
      simp only [REQUIRED_PLAYERS] at h2
      omega
    · intro h k hk
      obtain ⟨ms, hms⟩ := getRoom_isSome_of_mem_keys hk
      have := h k ms hms
      simp [hasFreePlace, hms, REQUIRED_PLAYERS, this]

/-- Witness of C13: with `room-100` full and `room-103` holding Dan alone, the
fifth joiner is put in `room-103`, the first room in key order with a free
place; and with the three joiners of `room-100` only, every room has 3 members
and the scan finds none. -/
theorem first_fit_assignment_witness :
    (runEvents State.empty [Event.request_to_play 1 "Alice" 100,
      Event.request_to_play 2 "Bob" 101, Event.request_to_play 3 "Cara" 102,
      Event.request_to_play 4 "Dan" 103]).gameRooms = [(100, [1, 2, 3]), (103, [4])] ∧
    (scanRooms (runEvents State.empty [Event.request_to_play 1 "Alice" 100,
        Event.request_to_play 2 "Bob" 101, Event.request_to_play 3 "Cara" 102,
        Event.request_to_play 4 "Dan" 103]).gameRooms
      = some (chosenRoom (runEvents State.empty [Event.request_to_play 1 "Alice" 100,
        Event.request_to_play 2 "Bob" 101, Event.request_to_play 3 "Cara" 102,
        Event.request_to_play 4 "Dan" 103]).gameRooms 104) ∧
      ∃ pre post, (runEvents State.empty [Event.request_to_play 1 "Alice" 100,
          Event.request_to_play 2 "Bob" 101, Event.request_to_play 3 "Cara" 102,
          Event.request_to_play 4 "Dan" 103]).gameRooms.map Prod.fst
          = pre ++ chosenRoom (runEvents State.empty [Event.request_to_play 1 "Alice" 100,
            Event.request_to_play 2 "Bob" 101, Event.request_to_play 3 "Cara" 102,
            Event.request_to_play 4 "Dan" 103]).gameRooms 104 :: post ∧
        (∀ k ∈ pre, hasFreePlace (runEvents State.empty [Event.request_to_play 1 "Alice" 100,
          Event.request_to_play 2 "Bob" 101, Event.request_to_play 3 "Cara" 102,
          Event.request_to_play 4 "Dan" 103]).gameRooms k = false) ∧
        hasFreePlace (runEvents State.empty [Event.request_to_play 1 "Alice" 100,
          Event.request_to_play 2 "Bob" 101, Event.request_to_play 3 "Cara" 102,
          Event.request_to_play 4 "Dan" 103]).gameRooms
          (chosenRoom (runEvents State.empty [Event.request_to_play 1 "Alice" 100,
            Event.request_to_play 2 "Bob" 101, Event.request_to_play 3 "Cara" 102,
            Event.request_to_play 4 "Dan" 103]).gameRooms 104) = true) ∧
    (scanRooms (runEvents State.empty [Event.request_to_play 1 "Alice" 100,
        Event.request_to_play 2 "Bob" 101, Event.request_to_play 3 "Cara" 102]).gameRooms
        = none ↔
      ∀ r ms, getRoom (runEvents State.empty [Event.request_to_play 1 "Alice" 100,
        Event.request_to_play 2 "Bob" 101, Event.request_to_play 3 "Cara" 102]).gameRooms r
        = some ms → ms.length = 3) :=
  ⟨by decide,
    (first_fit_assignment (runEvents State.empty [Event.request_to_play 1 "Alice" 100,
      Event.request_to_play 2 "Bob" 101, Event.request_to_play 3 "Cara" 102,
      Event.request_to_play 4 "Dan" 103]) 5 "Eve" 104).2.2.1 ⟨103, by decide, by decide⟩,
    (first_fit_assignment (runEvents State.empty [Event.request_to_play 1 "Alice" 100,
      Event.request_to_play 2 "Bob" 101, Event.request_to_play 3 "Cara" 102]) 4 "Dan"
      103).2.2.2.2 (by
        intro e he
        have hg : (runEvents State.empty [Event.request_to_play 1 "Alice" 100,
            Event.request_to_play 2 "Bob" 101,
            Event.request_to_play 3 "Cara" 102]).gameRooms = [(100, [1, 2, 3])] := by decide
        rw [hg] at he
        rcases List.mem_singleton.1 he with rfl
        decide)⟩

/-! ## C16: rooms are never destroyed and never shrink -/

/-- C16. For every state and every single event whose generated room id, if it
creates a room, is fresh: every room that exists before the event exists after
it, and its member array after the event is its member array before the event
followed by the ids pushed by the event (the old array is an initial segment of
the new one).  In particular `disconnect` leaves `gameRooms` unchanged, so the
id of a departed socket stays in the member array of its room. -/
theorem rooms_never_shrink (s : State) (e : Event) (hf : freshEvent s e = true) :
    (∀ r ms, getRoom s.gameRooms r = some ms →
      ∃ t, getRoom (step s e).state.gameRooms r = some (ms ++ t)) ∧
    (∀ c, e = Event.disconnect c → (step s e).state.gameRooms = s.gameRooms) := by
  constructor
  · intro r ms h
    by_cases hj : ∃ c playerName now, e = Event.request_to_play c playerName now
    · obtain ⟨c, playerName, now, rfl⟩ := hj
      simp only [step, request_to_play_state]
      by_cases hr : r = chosenRoom s.gameRooms now
      · obtain ⟨ms1, h1, h2⟩ := getRoom_joinRooms_chosen s.gameRooms c now
        rcases h2 with ⟨-, hold⟩ | ⟨hnone, hnow, -⟩
        · rw [← hr, h] at hold
          cases hold
          exact ⟨[c], by rw [hr]; exact h1⟩
        · simp only [freshEvent, hnone, Option.isSome_none, Bool.false_or,
            Option.isNone_iff_eq_none] at hf
          rw [hr, hnow, hf] at h
          cases h
      · exact ⟨[], by rw [getRoom_joinRooms_ne _ _ _ hr, List.append_nil]; exact h⟩
    · have hne : ∀ c playerName now, e ≠ Event.request_to_play c playerName now :=
        fun c playerName now he => hj ⟨c, playerName, now, he⟩
      obtain ⟨hg, -⟩ := step_keeps_rooms s e hne
      exact ⟨[], by rw [hg, List.append_nil]; exact h⟩
  · rintro c rfl
    exact disconnect_gameRooms s c

/-- Witness of C16: Bob's join extends `room-100` from `[1]` to `[1, 2]`, and
Alice's disconnect afterwards leaves her id in it. -/
theorem rooms_never_shrink_witness :
    freshEvent (runEvents State.empty [Event.request_to_play 1 "Alice" 100])
      (Event.request_to_play 2 "Bob" 101) = true ∧
    getRoom (runEvents State.empty [Event.request_to_play 1 "Alice" 100]).gameRooms 100
      = some [1] ∧
    (∃ t, getRoom (step (runEvents State.empty [Event.request_to_play 1 "Alice" 100])
      (Event.request_to_play 2 "Bob" 101)).state.gameRooms 100 = some ([1] ++ t)) ∧
    (step (runEvents State.empty [Event.request_to_play 1 "Alice" 100,
        Event.request_to_play 2 "Bob" 101]) (Event.disconnect 1)).state.gameRooms
      = (runEvents State.empty [Event.request_to_play 1 "Alice" 100,
        Event.request_to_play 2 "Bob" 101]).gameRooms :=
  ⟨by decide, by decide,
    (rooms_never_shrink (runEvents State.empty [Event.request_to_play 1 "Alice" 100])
      (Event.request_to_play 2 "Bob" 101) (by decide)).1 100 [1] (by decide),
    (rooms_never_shrink (runEvents State.empty [Event.request_to_play 1 "Alice" 100,
        Event.request_to_play 2 "Bob" 101]) (Event.disconnect 1) (by decide)).2 1 rfl⟩

/-! ## C18: at most one open room -/

theorem getRoom_eq_none_iff (g : Rooms) (k : RoomId) :
    getRoom g k = none ↔ k ∉ g.map Prod.fst := by
  constructor
  · intro h hk
    obtain ⟨ms, hms⟩ := getRoom_isSome_of_mem_keys hk
    rw [h] at hms
    cases hms
  · intro h
    cases hg : getRoom g k with
    | none => rfl
    | some ms => exact absurd (mem_keys_of_getRoom hg) h

theorem getRoom_append_of_not_mem {a : Rooms} {k : RoomId} (h : k ∉ a.map Prod.fst)
    (b : Rooms) : getRoom (a ++ b) k = getRoom b k := by
  induction a with
  | nil => rfl
  | cons e rest ih =>
    obtain ⟨q, v⟩ := e
    simp only [List.map_cons, List.mem_cons, not_or] at h
    have hq : ¬ q = k := fun hq => h.1 hq.symm
    simp [getRoom, hq, ih h.2]

theorem getRoom_append_of_mem {a : Rooms} {k : RoomId} (h : k ∈ a.map Prod.fst)
    (b : Rooms) : getRoom (a ++ b) k = getRoom a k := by
  induction a with
  | nil => simp at h
  | cons e rest ih =>
    obtain ⟨q, v⟩ := e
    by_cases hq : q = k
    · simp [getRoom, hq]
    · simp only [List.map_cons, List.mem_cons] at h
      rcases h with h | h
      · exact absurd h.symm hq
      · simp [getRoom, hq, ih h]

theorem modifyRoom_append_of_not_mem (f : List SocketId → List SocketId) {a : Rooms}
    {k : RoomId} (h : k ∉ a.map Prod.fst) (b : Rooms) :
    modifyRoom f k (a ++ b) = a ++ modifyRoom f k b := by
  induction a with
  | nil => rfl
  | cons e rest ih =>
    obtain ⟨q, v⟩ := e
    simp only [List.map_cons, List.mem_cons, not_or] at h
    have hq : ¬ q = k := fun hq => h.1 hq.symm
    simp [modifyRoom, hq, ih h.2]

/-- A join when no room has a free place and the generated id is fresh: the
new room is added last, with the joiner as its only member. -/
theorem joinRooms_all_full {g : Rooms} (hfull : ∀ e ∈ g, ¬ e.2.length < REQUIRED_PLAYERS)
    {now : Nat} (hnow : getRoom g now = none) (c : SocketId) :
    scanRooms g = none ∧ joinRooms g c now = g ++ [(now, [c])] := by
  have hscan : scanRooms g = none := by
    rw [scanRooms_eq_none_iff]
    intro k hk
    obtain ⟨ms, hms⟩ := getRoom_isSome_of_mem_keys hk
    have := hfull _ (mem_of_getRoom hms)
    simp only [hasFreePlace, hms, decide_eq_false_iff_not]
    exact this
  refine ⟨hscan, ?_⟩
  have hk : now ∉ g.map Prod.fst := (getRoom_eq_none_iff g now).1 hnow
  unfold joinRooms pushRoom setRoom
  simp only [hscan, hnow]
  rw [modifyRoom_append_of_not_mem _ hk]
  simp [modifyRoom]

/-- A join when every room but the last is full and the last has a free place:
the joiner is pushed onto the last room. -/
theorem joinRooms_last_free {init : Rooms} {k : RoomId} {ms : List SocketId}
    (hk : k ∉ init.map Prod.fst) (hfull : ∀ e ∈ init, ¬ e.2.length < REQUIRED_PLAYERS)
    (hlt : ms.length < REQUIRED_PLAYERS) (c : SocketId) (now : Nat) :
    scanRooms (init ++ [(k, ms)]) = some k ∧
    joinRooms (init ++ [(k, ms)]) c now = init ++ [(k, ms ++ [c])] := by
  have hscan : scanRooms (init ++ [(k, ms)]) = some k := by
    unfold scanRooms
    rw [List.map_append]
    refine foldl_scanStep_first _ (init.map Prod.fst) k [] ?_ ?_
    · intro q hq
      obtain ⟨v, hv⟩ := getRoom_isSome_of_mem_keys hq
      have hv2 : getRoom (init ++ [(k, ms)]) q = some v := by
        rw [getRoom_append_of_mem hq]; exact hv
      have := hfull _ (mem_of_getRoom hv)
      simp only [hasFreePlace, hv2, decide_eq_false_iff_not]
      exact this
    · have : getRoom (init ++ [(k, ms)]) k = some ms := by
        rw [getRoom_append_of_not_mem hk]; simp [getRoom]
      simp only [hasFreePlace, this, decide_eq_true_eq]
      exact hlt
  refine ⟨hscan, ?_⟩
  unfold joinRooms pushRoom
  simp only [hscan]
  rw [modifyRoom_append_of_not_mem _ hk]
  simp [modifyRoom]

theorem rooms_nil_or_snoc (g : Rooms) : g = [] ∨ ∃ init last, g = init ++ [last] := by
  rcases List.eq_nil_or_concat g with h | ⟨init, last, h⟩
  · exact Or.inl h
  · exact Or.inr ⟨init, last, by rw [h, List.concat_eq_append]⟩

/-- A join with a fresh room id keeps the packed shape; the keys grow by the
id of the room it creates, if any. -/
theorem packed_joinRooms {g : Rooms} (hp : Packed g) (c : SocketId) (now : Nat)
    (hf : ((scanRooms g).isSome || (getRoom g now).isNone) = true) :
    Packed (joinRooms g c now) ∧
    (joinRooms g c now).map Prod.fst =
      g.map Prod.fst ++ (if (scanRooms g).isNone then [now] else []) := by
  rcases rooms_nil_or_snoc g with rfl | ⟨init, last, rfl⟩
  · obtain ⟨h1, h2⟩ := @joinRooms_all_full [] (by intro e he; cases he) now rfl c
    rw [h2, h1]
    refine ⟨⟨by simp, ?_, by simp⟩, by simp⟩
    intro e he
    simp only [List.nil_append, List.mem_singleton] at he
    subst he
    simp [REQUIRED_PLAYERS]
  · obtain ⟨k, ms⟩ := last
    obtain ⟨hnd, hlen, hdrop⟩ := hp
    rw [List.dropLast_concat] at hdrop
    rw [List.map_append, List.map_singleton] at hnd
    have hk : k ∉ init.map Prod.fst := by
      intro hk
      have := (List.nodup_append.1 hnd).2.2
      exact this hk (List.mem_singleton_self k)
    have hinit : ∀ e ∈ init, ¬ e.2.length < REQUIRED_PLAYERS := by
      intro e he
      rw [hdrop e he]
      exact Nat.lt_irrefl _
    have hms := hlen (k, ms) (by simp)
    by_cases hlt : ms.length < REQUIRED_PLAYERS
    · obtain ⟨h1, h2⟩ := joinRooms_last_free hk hinit hlt c now
      rw [h2, h1]
      refine ⟨⟨by simpa using hnd, ?_, by rw [List.dropLast_concat]; exact hdrop⟩, by simp⟩
      intro e he
      rcases List.mem_append.1 he with he | he
      · exact hlen e (List.mem_append_left _ he)
      · simp only [List.mem_singleton] at he
        subst he
        simp only [List.length_append, List.length_singleton]
        omega
    · have hall : ∀ e ∈ init ++ [(k, ms)], ¬ e.2.length < REQUIRED_PLAYERS := by
        intro e he
        rcases List.mem_append.1 he with he | he
        · exact hinit e he
        · simp only [List.mem_singleton] at he
          subst he
          exact hlt
      have hscan : scanRooms (init ++ [(k, ms)]) = none := by
        rw [scanRooms_eq_none_iff]
        intro q hq
        obtain ⟨v, hv⟩ := getRoom_isSome_of_mem_keys hq
        have := hall _ (mem_of_getRoom hv)
        simp only [hasFreePlace, hv, decide_eq_false_iff_not]
        exact this
      have hnow : getRoom (init ++ [(k, ms)]) now = none := by
        simpa [hscan] using hf
      obtain ⟨-, h2⟩ := joinRooms_all_full hall hnow c
      have hnk : now ∉ (init ++ [(k, ms)]).map Prod.fst :=
        (getRoom_eq_none_iff _ now).1 hnow
      rw [h2, hscan]
      refine ⟨⟨?_, ?_, ?_⟩, by simp⟩
      · rw [List.map_append, List.map_singleton]
        refine List.nodup_append.2 ⟨by simpa using hnd, by simp, ?_⟩
        intro a ha hb
        rw [List.mem_singleton] at hb
        subst hb
        exact hnk ha
      · intro e he
        rcases List.mem_append.1 he with he | he
        · exact hlen e he
        · simp only [List.mem_singleton] at he
          subst he
          simp [REQUIRED_PLAYERS]
      · rw [List.dropLast_concat]
        intro e he
        have h1 := hall e he
        have h2 := (hlen e he).2
        omega

theorem packed_step {s : State} (hp : Packed s.gameRooms) (e : Event)
    (hf : freshEvent s e = true) :
    Packed (step s e).state.gameRooms ∧
    (step s e).state.gameRooms.map Prod.fst = s.gameRooms.map Prod.fst ++ createdBy s e := by
  by_cases hj : ∃ c playerName now, e = Event.request_to_play c playerName now
  · obtain ⟨c, playerName, now, rfl⟩ := hj
    simp only [step, request_to_play_state, createdBy]
    exact packed_joinRooms hp c now hf
  · have hne : ∀ c playerName now, e ≠ Event.request_to_play c playerName now :=
      fun c playerName now he => hj ⟨c, playerName, now, he⟩
    obtain ⟨hg, -⟩ := step_keeps_rooms s e hne
    rw [hg]
    refine ⟨hp, ?_⟩
    cases e with
    | request_to_play c playerName now => exact absurd rfl (hne c playerName now)
    | score_update c score => simp [createdBy]
    | game_over c => simp [createdBy]
    | chat_message c message timestamp => simp [createdBy]
    | disconnect c => simp [createdBy]

theorem packed_runEvents :
    ∀ (evs : List Event) (s : State), Packed s.gameRooms → freshRun s evs = true →
      Packed (runEvents s evs).gameRooms ∧
      (runEvents s evs).gameRooms.map Prod.fst =
        s.gameRooms.map Prod.fst ++ creationLog s evs := by
  intro evs
  induction evs with
  | nil => intro s hp _; exact ⟨hp, by simp [runEvents, creationLog]⟩
  | cons e es ih =>
    intro s hp hf
    simp only [freshRun, Bool.and_eq_true] at hf
    obtain ⟨h1, h2⟩ := packed_step hp e hf.1
    simp only [runEvents, creationLog]
    cases ht : (step s e).threw with
    | true => simpa using ⟨h1, h2⟩
    | false =>
      simp only [ht, Bool.false_eq_true, if_false] at hf ⊢
      obtain ⟨h3, h4⟩ := ih _ h1 hf.2
      refine ⟨h3, ?_⟩
      rw [h4, h2, List.append_assoc]

/-- In a packed map at most the last room in key order has a free place. -/
theorem packed_free_unique {g : Rooms} (hp : Packed g) {r1 r2 : RoomId}
    (h1 : hasFreePlace g r1 = true) (h2 : hasFreePlace g r2 = true) : r1 = r2 := by
  have key : ∀ r, hasFreePlace g r = true → ∃ init ms, g = init ++ [(r, ms)] := by
    intro r hr
    unfold hasFreePlace at hr
    cases hg : getRoom g r with
    | none => simp [hg] at hr
    | some ms =>
      simp only [hg, decide_eq_true_eq] at hr
      have hmem := mem_of_getRoom hg
      rcases rooms_nil_or_snoc g with rfl | ⟨init, last, rfl⟩
      · cases hmem
      · rcases List.mem_append.1 hmem with hm | hm
        · have := hp.2.2 (r, ms) (by rw [List.dropLast_concat]; exact hm)
          simp only at this
          omega
        · simp only [List.mem_singleton] at hm
          exact ⟨init, ms, by rw [hm]⟩
  obtain ⟨i1, m1, e1⟩ := key r1 h1
  obtain ⟨i2, m2, e2⟩ := key r2 h2
  rw [e1] at e2
  have := List.append_inj' e2 rfl
  simpa using congrArg Prod.fst (List.singleton_inj.1 this.2)

/-- C18. In every state reached from the empty state by a sequence of events in
which every generated room id is fresh: no room is empty; the keys of
`gameRooms`, in key order, are the created room ids in the order of their
creation; every room other than the last one (the most recently created) has
exactly 3 members; so at most one room has a free place. -/
theorem at_most_one_open_room (evs : List Event) (hf : freshRun State.empty evs = true) :
    (∀ e ∈ (runEvents State.empty evs).gameRooms, e.2 ≠ []) ∧
    (runEvents State.empty evs).gameRooms.map Prod.fst = creationLog State.empty evs ∧
    (∀ e ∈ (runEvents State.empty evs).gameRooms.dropLast, e.2.length = 3) ∧
    (∀ r1 r2, hasFreePlace (runEvents State.empty evs).gameRooms r1 = true →
      hasFreePlace (runEvents State.empty evs).gameRooms r2 = true → r1 = r2) := by
  have h0 : Packed State.empty.gameRooms := by
    refine ⟨by simp [State.empty], ?_, ?_⟩ <;> intro e he <;> simp [State.empty] at he
  obtain ⟨hp, hk⟩ := packed_runEvents evs State.empty h0 hf
  refine ⟨?_, by simpa [State.empty] using hk, hp.2.2, fun r1 r2 => packed_free_unique hp⟩
  intro e he hnil
  have := (hp.2.1 e he).1
  rw [hnil] at this
  simp at this

/-- Witness of C18: after four joins with fresh room ids, `room-100` is full and
`room-103`, the most recently created, is the only room with a free place. -/
theorem at_most_one_open_room_witness :
    freshRun State.empty [Event.request_to_play 1 "Alice" 100,
      Event.request_to_play 2 "Bob" 101, Event.request_to_play 3 "Cara" 102,
      Event.request_to_play 4 "Dan" 103] = true ∧
    (runEvents State.empty [Event.request_to_play 1 "Alice" 100,
      Event.request_to_play 2 "Bob" 101, Event.request_to_play 3 "Cara" 102,
      Event.request_to_play 4 "Dan" 103]).gameRooms = [(100, [1, 2, 3]), (103, [4])] ∧
    creationLog State.empty [Event.request_to_play 1 "Alice" 100,
      Event.request_to_play 2 "Bob" 101, Event.request_to_play 3 "Cara" 102,
      Event.request_to_play 4 "Dan" 103] = [100, 103] ∧
    ((∀ e ∈ (runEvents State.empty [Event.request_to_play 1 "Alice" 100,
        Event.request_to_play 2 "Bob" 101, Event.request_to_play 3 "Cara" 102,
        Event.request_to_play 4 "Dan" 103]).gameRooms, e.2 ≠ []) ∧
      (runEvents State.empty [Event.request_to_play 1 "Alice" 100,
        Event.request_to_play 2 "Bob" 101, Event.request_to_play 3 "Cara" 102,
        Event.request_to_play 4 "Dan" 103]).gameRooms.map Prod.fst
        = creationLog State.empty [Event.request_to_play 1 "Alice" 100,
          Event.request_to_play 2 "Bob" 101, Event.request_to_play 3 "Cara" 102,
          Event.request_to_play 4 "Dan" 103] ∧
      (∀ e ∈ (runEvents State.empty [Event.request_to_play 1 "Alice" 100,
        Event.request_to_play 2 "Bob" 101, Event.request_to_play 3 "Cara" 102,
        Event.request_to_play 4 "Dan" 103]).gameRooms.dropLast, e.2.length = 3) ∧
      (∀ r1 r2, hasFreePlace (runEvents State.empty [Event.request_to_play 1 "Alice" 100,
          Event.request_to_play 2 "Bob" 101, Event.request_to_play 3 "Cara" 102,
          Event.request_to_play 4 "Dan" 103]).gameRooms r1 = true →
        hasFreePlace (runEvents State.empty [Event.request_to_play 1 "Alice" 100,
          Event.request_to_play 2 "Bob" 101, Event.request_to_play 3 "Cara" 102,
          Event.request_to_play 4 "Dan" 103]).gameRooms r2 = true → r1 = r2)) :=
  ⟨by decide, by decide, by decide,
    at_most_one_open_room [Event.request_to_play 1 "Alice" 100,
      Event.request_to_play 2 "Bob" 101, Event.request_to_play 3 "Cara" 102,
      Event.request_to_play 4 "Dan" 103] (by decide)⟩

/-! ## C14: sequential fill -/

theorem joinsOf_append (a b : List Event) : joinsOf (a ++ b) = joinsOf a ++ joinsOf b := by
  induction a with
  | nil => rfl
  | cons e es ih => cases e <;> simp [joinsOf, ih]

theorem runEvents_singleton (s : State) (e : Event) :
    runEvents s [e] = (step s e).state := by
  simp only [runEvents]
  split <;> rfl

theorem runEvents_append :
    ∀ (a : List Event) (s : State) (b : List Event),
      (∀ o ∈ trace s a, o.threw = false) →
      runEvents s (a ++ b) = runEvents (runEvents s a) b := by
  intro a
  induction a with
  | nil => intro s b _; rfl
  | cons e es ih =>
    intro s b h
    have ht : (step s e).threw = false := h _ (by simp [trace])
    have hrest : ∀ o ∈ trace (step s e).state es, o.threw = false := by
      intro o ho
      exact h o (by simp [trace, ht, ho])
    simp only [List.cons_append, runEvents, ht, Bool.false_eq_true, if_false]
    exact ih _ b hrest

theorem freshRun_append :
    ∀ (a : List Event) (s : State) (b : List Event),
      (∀ o ∈ trace s a, o.threw = false) → freshRun s (a ++ b) = true →
      freshRun s a = true ∧ freshRun (runEvents s a) b = true := by
  intro a
  induction a with
  | nil => intro s b _ h; exact ⟨rfl, h⟩
  | cons e es ih =>
    intro s b h hf
    have ht : (step s e).threw = false := h _ (by simp [trace])
    have hrest : ∀ o ∈ trace (step s e).state es, o.threw = false := by
      intro o ho
      exact h o (by simp [trace, ht, ho])
    simp only [List.cons_append, freshRun, ht, Bool.false_eq_true, if_false,
      Bool.and_eq_true] at hf
    obtain ⟨h1, h2⟩ := ih _ b hrest hf.2
    simp only [freshRun, runEvents, ht, Bool.false_eq_true, if_false, Bool.and_eq_true]
    exact ⟨⟨hf.1, h1⟩, h2⟩

/-- The roster of a list of registered sockets is built without a throw and
carries their ids and names. -/
theorem playersInRoom_of_registered (players : SocketId → Option Player) :
    ∀ (xs : List (SocketId × String)), Registered xs players →
      ∃ roster, playersInRoom players (xs.map Prod.fst) = some roster ∧
        roster.map (fun e => (e.id, e.name)) = xs := by
  intro xs
  induction xs with
  | nil => intro _; exact ⟨[], rfl, rfl⟩
  | cons x xs ih =>
    intro h
    obtain ⟨rec, hrec, hname⟩ := h x (List.mem_cons_self _ _)
    obtain ⟨roster, hr, hmap⟩ := ih (fun y hy => h y (List.mem_cons_of_mem _ hy))
    refine ⟨⟨x.1, rec.name, rec.score⟩ :: roster, ?_, ?_⟩
    · simp [playersInRoom, hrec, hr]
    · simp [hmap, hname]

/-- The outcome of `request_to_play` once the member array and the roster of
the chosen room are known. -/
theorem request_to_play_of_roster (s : State) (c : SocketId) (playerName : String)
    (now : Nat) {ms : List SocketId} {roster : List RosterEntry}
    (hm : getRoom (joinRooms s.gameRooms c now) (chosenRoom s.gameRooms now) = some ms)
    (hr : playersInRoom (joinPlayers s c playerName now) ms = some roster) :
    (request_to_play s c playerName now).threw = false ∧
    (request_to_play s c playerName now).emitted =
      ⟨Target.room (chosenRoom s.gameRooms now),
        Payload.waiting_for_players ms.length REQUIRED_PLAYERS roster⟩ ::
      (if ms.length = REQUIRED_PLAYERS then
        [⟨Target.room (chosenRoom s.gameRooms now), Payload.game_start roster⟩]
      else []) := by
  simp [request_to_play, hm, hr]

/-- A join of a sequential fill: the rooms keep the fill shape and the chosen
room is the last one, holding the ids of the current group of joiners. -/
theorem fillRooms_join {J : List (SocketId × String)} {g : Rooms} (h : FillRooms J g)
    (x : SocketId × String) (now : Nat)
    (hf : ((scanRooms g).isSome || (getRoom g now).isNone) = true) :
    FillRooms (J ++ [x]) (joinRooms g x.1 now) ∧
    ∃ init, joinRooms g x.1 now =
      init ++ [(chosenRoom g now, ((J ++ [x]).drop (3 * (J.length / 3))).map Prod.fst)] := by
  obtain ⟨hp, hlen, hlast⟩ := h
  have hp2 := (packed_joinRooms hp x.1 now hf).1
  have key : ∃ init, joinRooms g x.1 now =
        init ++ [(chosenRoom g now, ((J ++ [x]).drop (3 * (J.length / 3))).map Prod.fst)] ∧
      init.length + 1 = (J.length + 1 + 2) / 3 := by
    rcases rooms_nil_or_snoc g with rfl | ⟨init, ⟨k, ms⟩, rfl⟩
    · have hJ : J.length = 0 := by
        simp only [List.length_nil] at hlen
        omega
      have hJ2 : J = [] := List.length_eq_zero.1 hJ
      subst hJ2
      obtain ⟨h1, h2⟩ := @joinRooms_all_full [] (by intro e he; cases he) now rfl x.1
      refine ⟨[], ?_, by simp⟩
      rw [h2]
      simp [chosenRoom, h1]
    · have hms := hlast init k ms rfl
      have hmslen : ms.length = J.length - 3 * ((J.length - 1) / 3) := by
        rw [hms]; simp
      simp only [List.length_append, List.length_singleton] at hlen
      have hnd := hp.1
      rw [List.map_append, List.map_singleton] at hnd
      have hk : k ∉ init.map Prod.fst := by
        intro hk
        exact (List.nodup_append.1 hnd).2.2 hk (List.mem_singleton_self k)
      have hdrop := hp.2.2
      rw [List.dropLast_concat] at hdrop
      have hinit : ∀ e ∈ init, ¬ e.2.length < REQUIRED_PLAYERS := by
        intro e he
        rw [hdrop e he]
        exact Nat.lt_irrefl _
      have hle := (hp.2.1 (k, ms) (by simp)).2
      simp only [REQUIRED_PLAYERS] at hle
      by_cases hlt : ms.length < REQUIRED_PLAYERS
      · obtain ⟨h1, h2⟩ := joinRooms_last_free hk hinit hlt x.1 now
        have hlt3 : ms.length < 3 := hlt
        have hd : 3 * (J.length / 3) = 3 * ((J.length - 1) / 3) := by omega
        refine ⟨init, ?_, by omega⟩
        rw [h2]
        have hc : chosenRoom (init ++ [(k, ms)]) now = k := by simp [chosenRoom, h1]
        rw [hc, hd, List.drop_append_of_le_length (by omega), List.map_append, ← hms]
        rfl
      · have hall : ∀ e ∈ init ++ [(k, ms)], ¬ e.2.length < REQUIRED_PLAYERS := by
          intro e he
          rcases List.mem_append.1 he with he | he
          · exact hinit e he
          · simp only [List.mem_singleton] at he
            subst he
            exact hlt
        have hscan : scanRooms (init ++ [(k, ms)]) = none := by
          rw [scanRooms_eq_none_iff]
          intro q hq
          obtain ⟨v, hv⟩ := getRoom_isSome_of_mem_keys hq
          have := hall _ (mem_of_getRoom hv)
          simp only [hasFreePlace, hv, decide_eq_false_iff_not]
          exact this
        have hnow : getRoom (init ++ [(k, ms)]) now = none := by
          simpa [hscan] using hf
        obtain ⟨-, h2⟩ := joinRooms_all_full hall hnow x.1
        have hge : ¬ ms.length < 3 := hlt
        have hd : 3 * (J.length / 3) = J.length := by omega
        refine ⟨init ++ [(k, ms)], ?_, ?_⟩
        · rw [h2]
          have hc : chosenRoom (init ++ [(k, ms)]) now = now := by simp [chosenRoom, hscan]
          rw [hc, hd, List.drop_left]
          rfl
        · simp only [List.length_append, List.length_singleton]
          omega
  obtain ⟨init, hg, hl⟩ := key
  refine ⟨⟨hp2, ?_, ?_⟩, init, hg⟩
  · rw [hg]
    simp only [List.length_append, List.length_singleton]
    omega
  · intro init1 k1 ms1 h1
    rw [hg] at h1
    have := (List.append_inj' h1 rfl).2
    simp only [List.cons.injEq, Prod.mk.injEq, and_true] at this
    rw [← this.2]
    simp

theorem registered_join {J : List (SocketId × String)} {s : State}
    (h : Registered J s.players) (c : SocketId) (playerName : String) (now : Nat)
    (hc : c ∉ J.map Prod.fst) :
    Registered (J ++ [(c, playerName)]) (joinPlayers s c playerName now) := by
  intro x hx
  rcases List.mem_append.1 hx with hx | hx
  · have hne : x.1 ≠ c := fun he => hc (he ▸ List.mem_map_of_mem Prod.fst hx)
    obtain ⟨rec, h1, h2⟩ := h x hx
    exact ⟨rec, by simp [joinPlayers, setPlayer, hne, h1], h2⟩
  · rw [List.mem_singleton] at hx
    subst hx
    exact ⟨⟨playerName, 0, some (chosenRoom s.gameRooms now), none⟩,
      by simp [joinPlayers, setPlayer], rfl⟩

theorem registered_step {J : List (SocketId × String)} {s : State}
    (h : Registered J s.players) (e : Event)
    (hne : ∀ c playerName now, e ≠ Event.request_to_play c playerName now)
    (hnd : isDisconnect e = false) : Registered J (step s e).state.players := by
  cases e with
  | request_to_play c playerName now => exact absurd rfl (hne c playerName now)
  | score_update c score =>
    intro x hx
    obtain ⟨rec, h1, h2⟩ := h x hx
    simp only [step]
    rw [score_update_players]
    by_cases hq : x.1 = c
    · rw [if_pos hq, ← hq, h1]
      refine ⟨_, rfl, ?_⟩
      by_cases hr : rec.room.isSome = true
      · simp only [hr, if_true]
        exact h2
      · simp only [hr]
        exact h2
    · rw [if_neg hq]
      exact ⟨rec, h1, h2⟩
  | game_over c =>
    rw [show step s (Event.game_over c) = game_over s c from rfl, game_over_state]
    exact h
  | chat_message c message timestamp =>
    rw [show step s (Event.chat_message c message timestamp) =
      chat_message s c message timestamp from rfl, chat_message_state]
    exact h
  | disconnect c => simp [isDisconnect] at hnd

/-- The sequential-fill shape is kept along a run without disconnects, of
joins by distinct new sockets with fresh room ids, in which no handler
throws. -/
theorem fill_runEvents :
    ∀ (evs : List Event) (s : State) (J : List (SocketId × String)),
      FillRooms J s.gameRooms → Registered J s.players →
      (∀ e ∈ evs, isDisconnect e = false) →
      ((J ++ joinsOf evs).map Prod.fst).Nodup →
      freshRun s evs = true →
      (∀ o ∈ trace s evs, o.threw = false) →
      FillRooms (J ++ joinsOf evs) (runEvents s evs).gameRooms ∧
      Registered (J ++ joinsOf evs) (runEvents s evs).players := by
  intro evs
  induction evs with
  | nil =>
    intro s J h1 h2 _ _ _ _
    simpa [joinsOf, runEvents] using And.intro h1 h2
  | cons e es ih =>
    intro s J h1 h2 hnd hdist hf hok
    have ht : (step s e).threw = false := hok _ (by simp [trace])
    have hrest : ∀ o ∈ trace (step s e).state es, o.threw = false := by
      intro o ho
      exact hok o (by simp [trace, ht, ho])
    have hnd2 : ∀ e1 ∈ es, isDisconnect e1 = false :=
      fun e1 he1 => hnd e1 (List.mem_cons_of_mem _ he1)
    simp only [freshRun, ht, Bool.false_eq_true, if_false, Bool.and_eq_true] at hf
    simp only [runEvents, ht, Bool.false_eq_true, if_false]
    by_cases hj : ∃ c playerName now, e = Event.request_to_play c playerName now
    · obtain ⟨c, playerName, now, rfl⟩ := hj
      have hJ : J ++ joinsOf (Event.request_to_play c playerName now :: es) =
          (J ++ [(c, playerName)]) ++ joinsOf es := by
        simp [joinsOf]
      rw [hJ] at hdist ⊢
      have hc : c ∉ J.map Prod.fst := by
        intro hc
        rw [List.map_append, List.map_append] at hdist
        have h3 := (List.nodup_append.1 (List.nodup_append.1 hdist).1).2.2
        exact h3 hc (by simp)
      have hs : (step s (Event.request_to_play c playerName now)).state =
          ⟨joinPlayers s c playerName now, joinRooms s.gameRooms c now⟩ :=
        request_to_play_state s c playerName now
      have h3 := (fillRooms_join h1 (c, playerName) now hf.1).1
      have h4 := registered_join h2 c playerName now hc
      exact ih _ _ (by rw [hs]; exact h3) (by rw [hs]; exact h4) hnd2 hdist hf.2 hrest
    · have hne : ∀ c playerName now, e ≠ Event.request_to_play c playerName now :=
        fun c playerName now he => hj ⟨c, playerName, now, he⟩
      have hJ : joinsOf (e :: es) = joinsOf es := by
        cases e with
        | request_to_play c playerName now => exact absurd rfl (hne c playerName now)
        | score_update c score => rfl
        | game_over c => rfl
        | chat_message c message timestamp => rfl
        | disconnect c => rfl
      rw [hJ] at hdist ⊢
      obtain ⟨hg, -⟩ := step_keeps_rooms s e hne
      have h4 := registered_step h2 e hne (hnd e (List.mem_cons_self _ _))
      exact ih _ _ (by rw [hg]; exact h1) h4 hnd2 hdist hf.2 hrest

/-- C14. Start from the empty state and handle a sequence `pre` of events
without disconnect, in which no handler throws, followed by a `request_to_play`
of the socket `c`; every join of the sequence comes from a distinct new socket
and every generated room id is fresh.  Let `n` be the number of this join among
the joins (`n >= 1`).  Then the joiner is placed in the room created as number
`ceil(n/3)` (index `(n-1)/3` of the creation log, which has `ceil(n/3)`
entries); the handler does not throw; its `waiting_for_players` event reports
`((n-1) mod 3) + 1` of 3 with a roster that lists, in join order, the ids and
names of the joiners of that room (the joins after the first `3 * ((n-1)/3)`),
each with its stored score; and `game_start` is emitted, with the same roster,
exactly when `n` is a multiple of 3. -/
theorem sequential_fill (pre : List Event) (c : SocketId) (playerName : String)
    (now : Nat) (n : Nat) (hn : n = (joinsOf pre).length + 1)
    (hnd : ∀ e ∈ pre, isDisconnect e = false)
    (hdist : ((joinsOf (pre ++ [Event.request_to_play c playerName now])).map
      Prod.fst).Nodup)
    (hfresh : freshRun State.empty (pre ++ [Event.request_to_play c playerName now]) = true)
    (hok : ∀ o ∈ trace State.empty pre, o.threw = false) :
    ∃ roster : List RosterEntry,
      (creationLog State.empty (pre ++ [Event.request_to_play c playerName now])).length
        = (n + 2) / 3 ∧
      (creationLog State.empty (pre ++ [Event.request_to_play c playerName now]))[(n - 1) / 3]?
        = some (chosenRoom (runEvents State.empty pre).gameRooms now) ∧
      getRoom (request_to_play (runEvents State.empty pre) c playerName now).state.gameRooms
          (chosenRoom (runEvents State.empty pre).gameRooms now)
        = some (roster.map (fun e => e.id)) ∧
      roster.map (fun e => (e.id, e.name)) =
        (joinsOf (pre ++ [Event.request_to_play c playerName now])).drop (3 * ((n - 1) / 3)) ∧
      playersInRoom (request_to_play (runEvents State.empty pre) c playerName now).state.players
          (roster.map (fun e => e.id)) = some roster ∧
      (request_to_play (runEvents State.empty pre) c playerName now).emitted =
        ⟨Target.room (chosenRoom (runEvents State.empty pre).gameRooms now),
          Payload.waiting_for_players ((n - 1) % 3 + 1) 3 roster⟩ ::
        (if n % 3 = 0 then
          [⟨Target.room (chosenRoom (runEvents State.empty pre).gameRooms now),
            Payload.game_start roster⟩]
        else []) ∧
      (request_to_play (runEvents State.empty pre) c playerName now).threw = false := by
  have hJ : joinsOf (pre ++ [Event.request_to_play c playerName now]) =
      joinsOf pre ++ [(c, playerName)] := by
    rw [joinsOf_append]; rfl
  rw [hJ] at hdist ⊢
  rw [List.map_append] at hdist
  have hdpre : ((joinsOf pre).map Prod.fst).Nodup := (List.nodup_append.1 hdist).1
  have hc : c ∉ (joinsOf pre).map Prod.fst := by
    intro hc
    exact (List.nodup_append.1 hdist).2.2 hc (by simp)
  obtain ⟨hf1, hf2⟩ := freshRun_append pre State.empty _ hok hfresh
  have hfe : freshEvent (runEvents State.empty pre)
      (Event.request_to_play c playerName now) = true := by
    simp only [freshRun, Bool.and_eq_true] at hf2
    exact hf2.1
  have hP0 : Packed State.empty.gameRooms := by
    refine ⟨by simp [State.empty], ?_, ?_⟩ <;> intro e he <;> simp [State.empty] at he
  have hF0 : FillRooms [] State.empty.gameRooms := by
    refine ⟨hP0, by simp [State.empty], ?_⟩
    intro init k ms h
    simp [State.empty] at h
  have hR0 : Registered [] State.empty.players := by
    intro x hx; cases hx
  obtain ⟨hF, hReg⟩ := fill_runEvents pre State.empty [] hF0 hR0 hnd
    (by simpa using hdpre) hf1 hok
  rw [List.nil_append] at hF hReg
  obtain ⟨hF2, init, hg⟩ := fillRooms_join hF (c, playerName) now hfe
  have hReg2 := registered_join hReg c playerName now hc
  have hkeys := hF2.1.1
  rw [hg, List.map_append, List.map_singleton] at hkeys
  have hch : chosenRoom (runEvents State.empty pre).gameRooms now ∉ init.map Prod.fst := by
    intro h
    exact (List.nodup_append.1 hkeys).2.2 h (List.mem_singleton_self _)
  have hm : getRoom (joinRooms (runEvents State.empty pre).gameRooms c now)
      (chosenRoom (runEvents State.empty pre).gameRooms now) =
      some (((joinsOf pre ++ [(c, playerName)]).drop
        (3 * ((joinsOf pre).length / 3))).map Prod.fst) := by
    rw [hg, getRoom_append_of_not_mem hch]
    simp [getRoom]
  have hxs : Registered ((joinsOf pre ++ [(c, playerName)]).drop
      (3 * ((joinsOf pre).length / 3))) (joinPlayers (runEvents State.empty pre) c playerName now) :=
    fun x hx => hReg2 x (List.mem_of_mem_drop hx)
  obtain ⟨roster, hr, hmap⟩ := playersInRoom_of_registered _ _ hxs
  obtain ⟨hthrew, hem⟩ := request_to_play_of_roster (runEvents State.empty pre) c playerName
    now hm hr
  have hids : roster.map (fun e => e.id) = ((joinsOf pre ++ [(c, playerName)]).drop
      (3 * ((joinsOf pre).length / 3))).map Prod.fst := by
    rw [← hmap, List.map_map]
    rfl
  have hn1 : (n - 1) / 3 = (joinsOf pre).length / 3 := by rw [hn]; simp
  have hlog : creationLog State.empty (pre ++ [Event.request_to_play c playerName now]) =
      init.map Prod.fst ++ [chosenRoom (runEvents State.empty pre).gameRooms now] := by
    have h1 := (packed_runEvents _ State.empty hP0 hfresh).2
    rw [runEvents_append pre State.empty _ hok, runEvents_singleton] at h1
    simp only [step, request_to_play_state] at h1
    rw [hg] at h1
    simpa [State.empty] using h1.symm
  have hinit : init.length + 1 = ((joinsOf pre).length + 1 + 2) / 3 := by
    have := hF2.2.1
    rw [hg] at this
    simpa using this
  refine ⟨roster, ?_, ?_, ?_, ?_, ?_, ?_, hthrew⟩
  · rw [hlog, hn]
    simp only [List.length_append, List.length_map, List.length_singleton]
    exact hinit
  · rw [hlog, hn1]
    have : (joinsOf pre).length / 3 = (init.map Prod.fst).length := by
      rw [List.length_map]; omega
    rw [this]
    simp
  · rw [request_to_play_state, hids]
    exact hm
  · rw [hmap, hn1]
  · rw [request_to_play_state, hids]
    exact hr
  · rw [hem]
    have hlen : (((joinsOf pre ++ [(c, playerName)]).drop
        (3 * ((joinsOf pre).length / 3))).map Prod.fst).length = (n - 1) % 3 + 1 := by
      simp only [List.length_map, List.length_drop, List.length_append,
        List.length_singleton]
      omega
    rw [hlen]
    by_cases h3 : n % 3 = 0
    · have : (n - 1) % 3 + 1 = REQUIRED_PLAYERS := by
        simp only [REQUIRED_PLAYERS]; omega
      simp [h3, this, REQUIRED_PLAYERS]
    · have : ¬ (n - 1) % 3 + 1 = REQUIRED_PLAYERS := by
        simp only [REQUIRED_PLAYERS]; omega
      rw [if_neg this, if_neg h3]
      rfl

/-- Witness of C14, the scenario of the specification: Alice, Bob and Cara
join in this order with fresh room ids, then Dan.  The second join reports 2 of
3 with the roster Alice, Bob; the third reports 3 of 3 and emits `game_start`
with the roster Alice, Bob, Cara; the fourth opens `room-103` and reports 1 of
3.  The theorem is applied to the third join (`n = 3`). -/
theorem sequential_fill_witness :
    (trace State.empty [Event.request_to_play 1 "Alice" 100,
        Event.request_to_play 2 "Bob" 101, Event.request_to_play 3 "Cara" 102,
        Event.request_to_play 4 "Dan" 103]).map (fun o => o.emitted) =
      [[⟨Target.room 100, Payload.waiting_for_players 1 3 [⟨1, "Alice", 0⟩]⟩],
       [⟨Target.room 100, Payload.waiting_for_players 2 3
          [⟨1, "Alice", 0⟩, ⟨2, "Bob", 0⟩]⟩],
       [⟨Target.room 100, Payload.waiting_for_players 3 3
          [⟨1, "Alice", 0⟩, ⟨2, "Bob", 0⟩, ⟨3, "Cara", 0⟩]⟩,
        ⟨Target.room 100, Payload.game_start
          [⟨1, "Alice", 0⟩, ⟨2, "Bob", 0⟩, ⟨3, "Cara", 0⟩]⟩],
       [⟨Target.room 103, Payload.waiting_for_players 1 3 [⟨4, "Dan", 0⟩]⟩]] ∧
    ∃ roster : List RosterEntry,
      (creationLog State.empty ([Event.request_to_play 1 "Alice" 100, Event.request_to_play 2 "Bob" 101] ++
        [Event.request_to_play 3 "Cara" 102])).length = (3 + 2) / 3 ∧
      (creationLog State.empty ([Event.request_to_play 1 "Alice" 100, Event.request_to_play 2 "Bob" 101] ++
        [Event.request_to_play 3 "Cara" 102]))[(3 - 1) / 3]?
        = some (chosenRoom (runEvents State.empty
        [Event.request_to_play 1 "Alice" 100, Event.request_to_play 2 "Bob" 101]).gameRooms 102) ∧
      getRoom (request_to_play (runEvents State.empty
        [Event.request_to_play 1 "Alice" 100, Event.request_to_play 2 "Bob" 101]) 3 "Cara" 102).state.gameRooms
          (chosenRoom (runEvents State.empty
        [Event.request_to_play 1 "Alice" 100, Event.request_to_play 2 "Bob" 101]).gameRooms 102)
        = some (roster.map (fun e => e.id)) ∧
      roster.map (fun e => (e.id, e.name)) =
        (joinsOf ([Event.request_to_play 1 "Alice" 100, Event.request_to_play 2 "Bob" 101] ++
        [Event.request_to_play 3 "Cara" 102])).drop (3 * ((3 - 1) / 3)) ∧
      playersInRoom (request_to_play (runEvents State.empty
        [Event.request_to_play 1 "Alice" 100, Event.request_to_play 2 "Bob" 101]) 3 "Cara" 102).state.players
          (roster.map (fun e => e.id)) = some roster ∧
      (request_to_play (runEvents State.empty
        [Event.request_to_play 1 "Alice" 100, Event.request_to_play 2 "Bob" 101]) 3 "Cara" 102).emitted =
        ⟨Target.room (chosenRoom (runEvents State.empty
        [Event.request_to_play 1 "Alice" 100, Event.request_to_play 2 "Bob" 101]).gameRooms 102),
          Payload.waiting_for_players ((3 - 1) % 3 + 1) 3 roster⟩ ::
        (if 3 % 3 = 0 then
          [⟨Target.room (chosenRoom (runEvents State.empty
        [Event.request_to_play 1 "Alice" 100, Event.request_to_play 2 "Bob" 101]).gameRooms 102),
            Payload.game_start roster⟩]
        else []) ∧
      (request_to_play (runEvents State.empty
        [Event.request_to_play 1 "Alice" 100, Event.request_to_play 2 "Bob" 101]) 3 "Cara" 102).threw = false :=
  ⟨by decide,
    sequential_fill [Event.request_to_play 1 "Alice" 100, Event.request_to_play 2 "Bob" 101]
      3 "Cara" 102 3 (by decide) (by decide) (by decide) (by decide) (by decide)⟩

end Server
